import Mathlib

/-
  Verification of the RAPTOR journey planner in Trips.py.

  The data model and the algorithm are translated from the source.
  Identifier strings are modelled as abstract Nat keys; only equality of
  identifiers is ever used by the code.  Python dictionaries keyed by
  Stop and Route objects hash and compare by the identifier field, so
  they are modelled as association lists keyed by the identifier.
  Python sets (marked stops, routes to explore) are modelled as
  duplicate-free lists in insertion order, a deterministic refinement
  of the arbitrary-but-fixed iteration order of a Python set.
  Times are Int (Python int seconds since midnight).
-/

/-- A physical stop; Python Stop compares and hashes by stop_id only,
so the remaining display fields are dropped. -/
structure Stop where
  stop_id : Nat
deriving DecidableEq, Repr

/-- A transit route: identifier and ordered stop sequence. -/
structure Route where
  route_id : Nat
  stops : List Stop
deriving DecidableEq, Repr

/-- A scheduled trip: identifier, owning route, and the per-stop
(arrival, departure) map, modelled as an association list. -/
structure Trip where
  trip_id : Nat
  route : Route
  stop_times : List (Stop × Int × Int)
deriving DecidableEq, Repr

/-- Lookup in the stop_times dictionary of a trip. -/
def stLookup : List (Stop × Int × Int) → Stop → Option (Int × Int)
  | [], _ => none
  | (k, a, d) :: rest, s => if k = s then some (a, d) else stLookup rest s

/-- Trip.get_arrival_time from the source. -/
def Trip.get_arrival_time (T : Trip) (s : Stop) : Option Int :=
  (stLookup T.stop_times s).map (fun p => p.1)

/-- Trip.get_departure_time from the source. -/
def Trip.get_departure_time (T : Trip) (s : Stop) : Option Int :=
  (stLookup T.stop_times s).map (fun p => p.2)

/-- Trip.can_board_at from the source: departure defined and at or
after the current time. -/
def Trip.can_board_at (T : Trip) (s : Stop) (current_time : Int) : Bool :=
  match T.get_departure_time s with
  | none => false
  | some d => current_time ≤ d

/-- Route.get_stop_index from the source: index of the first occurrence
of the stop in the route stop sequence, or none. -/
def Route.get_stop_index (r : Route) (s : Stop) : Option Nat :=
  go r.stops 0
where
  go : List Stop → Nat → Option Nat
    | [], _ => none
    | x :: rest, i => if x = s then some i else go rest (i + 1)

/-- A label: best known way to reach a stop. -/
structure Label where
  arrival_time : Int
  previous_stop : Option Stop
  trip : Option Trip
  round : Nat
deriving DecidableEq, Repr

/-- Label.is_better_than from the source: strictly earlier arrival, and
anything beats an absent label. -/
def Label.is_better_than (l : Label) (other : Option Label) : Bool :=
  match other with
  | none => true
  | some o => l.arrival_time < o.arrival_time

/-- A complete journey; legs are (from_stop, to_stop, trip). -/
structure Journey where
  origin : Stop
  destination : Stop
  departure_time : Int
  arrival_time : Int
  legs : List (Stop × Stop × Trip)
deriving DecidableEq, Repr

/-- The per-round label dictionary, keyed by stop. -/
def LabelMap := List (Stop × Label)
deriving DecidableEq

/-- Dictionary lookup labels[stop]. -/
def lookupL : LabelMap → Stop → Option Label
  | [], _ => none
  | (k, v) :: rest, s => if k = s then some v else lookupL rest s

/-- Dictionary write labels[stop] = lab (replace or append). -/
def insertL : LabelMap → Stop → Label → LabelMap
  | [], s, lab => [(s, lab)]
  | (k, v) :: rest, s, lab =>
      if k = s then (s, lab) :: rest else (k, v) :: insertL rest s lab

/-- Set-style insertion for the marked-stop set. -/
def addMark (m : List Stop) (s : Stop) : List Stop :=
  if s ∈ m then m else m ++ [s]

/-- Association list over Nat identifier keys. -/
def lookupNat {α : Type} : List (Nat × α) → Nat → Option α
  | [], _ => none
  | (k, v) :: rest, key => if k = key then some v else lookupNat rest key

/-- Replace the value at an existing key (append if absent). -/
def assocSet {α : Type} : List (Nat × α) → Nat → α → List (Nat × α)
  | [], key, v => [(key, v)]
  | (k, w) :: rest, key, v =>
      if k = key then (k, v) :: rest else (k, w) :: assocSet rest key v

/-- Membership of a route in a list, by route_id, as Python uses
Route equality by identifier. -/
def routeMemB (r : Route) (l : List Route) : Bool :=
  l.any (fun r2 => r2.route_id = r.route_id)

/-- One step of RAPTOR._build_route_index: record that route r serves
stop s, deduplicated. -/
def indexAddRoute (idx : List (Nat × List Route)) (s : Stop) (r : Route) :
    List (Nat × List Route) :=
  match lookupNat idx s.stop_id with
  | none => idx ++ [(s.stop_id, [r])]
  | some l => if routeMemB r l then idx else assocSet idx s.stop_id (l ++ [r])

/-- RAPTOR._build_route_index from the source. -/
def buildRouteIndex (routes : List Route) : List (Nat × List Route) :=
  routes.foldl (fun idx r => r.stops.foldl (fun idx2 s => indexAddRoute idx2 s r) idx) []

/-- One step of RAPTOR._build_trip_index: append the trip to the bucket
of its route. -/
def indexAddTrip (idx : List (Nat × List Trip)) (T : Trip) : List (Nat × List Trip) :=
  match lookupNat idx T.route.route_id with
  | none => idx ++ [(T.route.route_id, [T])]
  | some l => assocSet idx T.route.route_id (l ++ [T])

/-- RAPTOR._build_trip_index from the source. -/
def buildTripIndex (trips : List Trip) : List (Nat × List Trip) :=
  trips.foldl indexAddTrip []

/-- The RAPTOR instance state: the network lists and the two indices
built by __init__. -/
structure RAPTOR where
  routes : List Route
  trips : List Trip
  routes_at_stop : List (Nat × List Route)
  trips_on_route : List (Nat × List Trip)
deriving DecidableEq, Repr

/-- RAPTOR.__init__ from the source: store the network and build both
indices eagerly. -/
def RAPTOR.init (routes : List Route) (trips : List Trip) : RAPTOR :=
  ⟨routes, trips, buildRouteIndex routes, buildTripIndex trips⟩

/-- The trips_on_route bucket of a route, empty when the route is not
in the index. -/
def tripsOfD (rap : RAPTOR) (r : Route) : List Trip :=
  (lookupNat rap.trips_on_route r.route_id).getD []

/-- The routes_at_stop bucket of a stop, empty when absent, matching
the membership guard in the source. -/
def routesOfD (rap : RAPTOR) (s : Stop) : List Route :=
  (lookupNat rap.routes_at_stop s.stop_id).getD []

/-- One loop iteration of RAPTOR.find_earliest_trip: the running state
is (earliest_trip, earliest_departure), with none standing for the
initial float(inf). -/
def feStep (s : Stop) (t : Int) (st : Option Trip × Option Int) (T : Trip) :
    Option Trip × Option Int :=
  if T.can_board_at s t then
    match T.get_departure_time s with
    | none => st
    | some d =>
      match st.2 with
      | none => (some T, some d)
      | some e => if d < e then (some T, some d) else st
  else st

/-- RAPTOR.find_earliest_trip from the source: linear scan over the
trips of the route with strict replacement. -/
def find_earliest_trip (rap : RAPTOR) (r : Route) (s : Stop) (t : Int) : Option Trip :=
  match lookupNat rap.trips_on_route r.route_id with
  | none => none
  | some l => (l.foldl (feStep s t) (none, none)).1

/-- The hop-on search of the route scan: the stop of the route with
the minimal previous-round arrival, first occurrence winning ties. -/
def findEarliestBoarding (prev : LabelMap) (stops : List Stop) : Option (Stop × Int) :=
  stops.foldl
    (fun b s =>
      match lookupL prev s with
      | none => b
      | some lab =>
        match b with
        | none => some (s, lab.arrival_time)
        | some (_, bt) => if lab.arrival_time < bt then some (s, lab.arrival_time) else b)
    none

/-- One stop of the trip walk in RAPTOR.query: the state is the
boarding stop (none before boarding), the current-round labels and the
marked list.  Boarding is checked against the previous-round label and,
once boarded, the arrival at this very stop is already written. -/
def walkStep (prev : LabelMap) (k : Nat) (T : Trip)
    (w : Option Stop × LabelMap × List Stop) (s : Stop) :
    Option Stop × LabelMap × List Stop :=
  let bo : Option Stop :=
    match w.1 with
    | some b => some b
    | none =>
      match lookupL prev s with
      | some lab => if T.can_board_at s lab.arrival_time then some s else none
      | none => none
  match bo with
  | none => (none, w.2.1, w.2.2)
  | some b =>
    match T.get_arrival_time s with
    | none => (some b, w.2.1, w.2.2)
    | some a =>
      let nl : Label := ⟨a, some b, some T, k⟩
      if nl.is_better_than (lookupL w.2.1 s) then
        (some b, insertL w.2.1 s nl, addMark w.2.2 s)
      else (some b, w.2.1, w.2.2)

/-- The scan of one route in round k of RAPTOR.query: find the hop-on
stop, pick the earliest boardable trip there, then walk the route. -/
def scanRoute (rap : RAPTOR) (prev : LabelMap) (k : Nat)
    (st : LabelMap × List Stop) (r : Route) : LabelMap × List Stop :=
  match findEarliestBoarding prev r.stops with
  | none => st
  | some (bs, bt) =>
    match find_earliest_trip rap r bs bt with
    | none => st
    | some T =>
      let w := r.stops.foldl (walkStep prev k T) (none, st.1, st.2)
      (w.2.1, w.2.2)

/-- The route queue of a round: all routes serving a marked stop, in
insertion order and deduplicated by route_id. -/
def collectRoutes (rap : RAPTOR) (marked : List Stop) : List Route :=
  marked.foldl
    (fun acc s =>
      (routesOfD rap s).foldl
        (fun acc2 r => if routeMemB r acc2 then acc2 else acc2 ++ [r]) acc)
    []

/-- One round of RAPTOR.query: seed labels[k] from labels[k-1], clear
the marked set, and scan every queued route. -/
def roundStep (rap : RAPTOR) (prev : LabelMap) (marked : List Stop) (k : Nat) :
    LabelMap × List Stop :=
  (collectRoutes rap marked).foldl (scanRoute rap prev k) (prev, [])

/-- The round loop of RAPTOR.query with the early-termination break of
the source: stop when the destination has a label and was not marked in
the round just completed.  The remaining entries of the labels list
stay empty, as in the source where they were preallocated as {}. -/
def runAux (rap : RAPTOR) (d : Stop) (prev : LabelMap) (marked : List Stop)
    (k : Nat) : Nat → List LabelMap
  | 0 => []
  | n + 1 =>
    if (lookupL (roundStep rap prev marked k).1 d).isSome ∧
        d ∉ (roundStep rap prev marked k).2 then
      (roundStep rap prev marked k).1 :: List.replicate n []
    else (roundStep rap prev marked k).1 ::
      runAux rap d (roundStep rap prev marked k).1 (roundStep rap prev marked k).2 (k + 1) n

/-- One step of the best-round search of RAPTOR._reconstruct_journey:
keep the strictly better destination label, earlier rounds winning
ties. -/
def updateBest (tbl : LabelMap) (d : Stop) (k : Nat)
    (st : Option (Label × Nat)) : Option (Label × Nat) :=
  match lookupL tbl d with
  | none => st
  | some lab =>
    match st with
    | none => some (lab, k)
    | some (bl, br) => if lab.arrival_time < bl.arrival_time then some (lab, k) else some (bl, br)

/-- The best-round search, iterating k upward for the given number of
rounds. -/
def findBestAux (ts : List LabelMap) (d : Stop) :
    Nat → Nat → Option (Label × Nat) → Option (Label × Nat)
  | _, 0, st => st
  | k, fuel + 1, st => findBestAux ts d (k + 1) fuel (updateBest (ts.getD k []) d k st)

/-- The best destination label over rounds 0..K with its round. -/
def findBest (ts : List LabelMap) (d : Stop) (K : Nat) : Option (Label × Nat) :=
  findBestAux ts d 0 (K + 1) none

/-- The backtracking loop of RAPTOR._reconstruct_journey.  A failed
dictionary lookup (a KeyError in the source) is modelled as the whole
reconstruction failing. -/
def backtrack (ts : List LabelMap) : Nat → Stop → List (Stop × Stop × Trip) →
    Option (List (Stop × Stop × Trip))
  | 0, _, acc => some acc
  | r + 1, s, acc =>
    match lookupL (ts.getD (r + 1) []) s with
    | none => none
    | some lab =>
      match lab.previous_stop, lab.trip with
      | some p, some T => backtrack ts r p ((p, s, T) :: acc)
      | _, _ => some acc

/-- RAPTOR._reconstruct_journey from the source. -/
def reconstruct_journey (o d : Stop) (t0 : Int) (ts : List LabelMap) (K : Nat) :
    Option Journey :=
  match findBest ts d K with
  | none => none
  | some (bl, br) =>
    match backtrack ts br d [] with
    | none => none
    | some legs => some ⟨o, d, t0, bl.arrival_time, legs⟩

/-- RAPTOR.query from the source: round 0 holds only the origin, then
the round loop runs with early termination, then reconstruction. -/
def query (rap : RAPTOR) (o d : Stop) (t0 : Int) (K : Nat) : Option Journey :=
  reconstruct_journey o d t0
    ([(o, ⟨t0, none, none, 0⟩)] :: runAux rap d [(o, ⟨t0, none, none, 0⟩)] [o] 1 K) K

/-- The round loop without any early termination (all K rounds always
run); used to state the early-termination equivalence claim. -/
def runAuxNB (rap : RAPTOR) (d : Stop) (prev : LabelMap) (marked : List Stop)
    (k : Nat) : Nat → List LabelMap
  | 0 => []
  | n + 1 =>
    (roundStep rap prev marked k).1 ::
      runAuxNB rap d (roundStep rap prev marked k).1 (roundStep rap prev marked k).2 (k + 1) n

/-- query with the early termination removed. -/
def queryNoBreak (rap : RAPTOR) (o d : Stop) (t0 : Int) (K : Nat) : Option Journey :=
  reconstruct_journey o d t0
    ([(o, ⟨t0, none, none, 0⟩)] :: runAuxNB rap d [(o, ⟨t0, none, none, 0⟩)] [o] 1 K) K

/-- The round loop with the repaired termination test: stop only when
the destination has a label and no stop at all was marked in the round
just completed. -/
def runAuxBE (rap : RAPTOR) (d : Stop) (prev : LabelMap) (marked : List Stop)
    (k : Nat) : Nat → List LabelMap
  | 0 => []
  | n + 1 =>
    if (lookupL (roundStep rap prev marked k).1 d).isSome ∧
        (roundStep rap prev marked k).2 = [] then
      (roundStep rap prev marked k).1 :: List.replicate n []
    else (roundStep rap prev marked k).1 ::
      runAuxBE rap d (roundStep rap prev marked k).1 (roundStep rap prev marked k).2 (k + 1) n

/-- query with the repaired termination test. -/
def queryBreakEmpty (rap : RAPTOR) (o d : Stop) (t0 : Int) (K : Nat) : Option Journey :=
  reconstruct_journey o d t0
    ([(o, ⟨t0, none, none, 0⟩)] :: runAuxBE rap d [(o, ⟨t0, none, none, 0⟩)] [o] 1 K) K

/-- State-passing form of RAPTOR.query: the method reads the instance
fields and assigns none of them, so the translated state is returned
unchanged alongside the result. -/
def queryS (rap : RAPTOR) (o d : Stop) (t0 : Int) (K : Nat) : RAPTOR × Option Journey :=
  (rap, query rap o d t0 K)

theorem runAux_succ (rap : RAPTOR) (d : Stop) (prev : LabelMap) (marked : List Stop)
    (k n : Nat) (cur : LabelMap) (m2 : List Stop)
    (hrs : roundStep rap prev marked k = (cur, m2)) :
    runAux rap d prev marked k (n + 1) =
      if (lookupL cur d).isSome ∧ d ∉ m2 then cur :: List.replicate n []
      else cur :: runAux rap d cur m2 (k + 1) n := by
  rw [runAux, hrs]

theorem runAuxNB_succ (rap : RAPTOR) (d : Stop) (prev : LabelMap) (marked : List Stop)
    (k n : Nat) (cur : LabelMap) (m2 : List Stop)
    (hrs : roundStep rap prev marked k = (cur, m2)) :
    runAuxNB rap d prev marked k (n + 1) = cur :: runAuxNB rap d cur m2 (k + 1) n := by
  rw [runAuxNB, hrs]

theorem runAuxBE_succ (rap : RAPTOR) (d : Stop) (prev : LabelMap) (marked : List Stop)
    (k n : Nat) (cur : LabelMap) (m2 : List Stop)
    (hrs : roundStep rap prev marked k = (cur, m2)) :
    runAuxBE rap d prev marked k (n + 1) =
      if (lookupL cur d).isSome ∧ m2 = [] then cur :: List.replicate n []
      else cur :: runAuxBE rap d cur m2 (k + 1) n := by
  rw [runAuxBE, hrs]

/-
  Concrete networks used by counterexamples and witnesses.  All of them
  satisfy the data-model invariants of the specification: routes have at
  least two distinct stops, every trip covers exactly the stops of its
  route, arrival is at most departure at every stop, and departures are
  monotone along the route.
-/

def sA : Stop := ⟨1⟩
def sB : Stop := ⟨2⟩
def sC : Stop := ⟨3⟩

/-- C6 network, route 1: A then B. -/
def R1C6 : Route := ⟨1, [sA, sB]⟩
/-- C6 network, route 2: C then B. -/
def R2C6 : Route := ⟨2, [sC, sB]⟩
/-- Trip on route 1: arrives B at 200, departs B at 300 (a dwell). -/
def T1C6 : Trip := ⟨1, R1C6, [(sA, 100, 100), (sB, 200, 300)]⟩
/-- Trip on route 2: arrives B at 150, departs B at 250 (a dwell). -/
def T2C6 : Trip := ⟨2, R2C6, [(sC, 100, 120), (sB, 150, 250)]⟩
def rapC6 : RAPTOR := RAPTOR.init [R1C6, R2C6] [T1C6, T2C6]
/-- The journey the source returns on the C6 network. -/
def jC6 : Journey := ⟨sA, sB, 100, 150, [(sA, sB, T1C6), (sB, sB, T2C6)]⟩

def sO : Stop := ⟨10⟩
def sB9 : Stop := ⟨11⟩
/-- C9 network: one route from O to B. -/
def R9 : Route := ⟨9, [sO, sB9]⟩
/-- Trip that arrives at O at 150 and departs O at 200. -/
def T9 : Trip := ⟨9, R9, [(sO, 150, 200), (sB9, 250, 250)]⟩
def rapC9 : RAPTOR := RAPTOR.init [R9] [T9]
/-- The journey the source returns for origin = destination = O. -/
def jC9 : Journey := ⟨sO, sO, 200, 150, [(sO, sO, T9)]⟩

def s4A : Stop := ⟨20⟩
def s4B : Stop := ⟨21⟩
def s4C : Stop := ⟨22⟩
def s4D : Stop := ⟨23⟩
def R41 : Route := ⟨41, [s4A, s4D]⟩
def R42 : Route := ⟨42, [s4A, s4B]⟩
def R43 : Route := ⟨43, [s4B, s4C]⟩
def R44 : Route := ⟨44, [s4C, s4D]⟩
def T41 : Trip := ⟨41, R41, [(s4A, 0, 0), (s4D, 1000, 1000)]⟩
def T42 : Trip := ⟨42, R42, [(s4A, 0, 0), (s4B, 200, 200)]⟩
def T43 : Trip := ⟨43, R43, [(s4B, 250, 250), (s4C, 300, 300)]⟩
def T44 : Trip := ⟨44, R44, [(s4C, 350, 350), (s4D, 400, 400)]⟩
/-- C4 network: a slow direct trip A to D plus a faster three-leg chain
A-B-C-D whose last leg is only found in round 3, after the round in
which D was not improved. -/
def rapC4 : RAPTOR := RAPTOR.init [R41, R42, R43, R44] [T41, T42, T43, T44]

def c2A : Stop := ⟨30⟩
def c2B : Stop := ⟨31⟩
def c2C : Stop := ⟨32⟩
/-- C2 network: one route A, B, C with two trips. -/
def RC2 : Route := ⟨50, [c2A, c2B, c2C]⟩
/-- The trip boardable at A; it reaches C only at 300. -/
def T1C2 : Trip := ⟨51, RC2, [(c2A, 100, 100), (c2B, 140, 140), (c2C, 300, 300)]⟩
/-- The earlier trip: it already left A but can still be caught at B
and reaches C at 200. -/
def T2C2 : Trip := ⟨52, RC2, [(c2A, 90, 95), (c2B, 150, 160), (c2C, 200, 200)]⟩
def rapC2 : RAPTOR := RAPTOR.init [RC2] [T1C2, T2C2]
/-- Previous-round labels for the C2 route scan: A reached at 100 and B
reached at 150. -/
def prevC2 : LabelMap := [(c2A, ⟨100, none, none, 0⟩), (c2B, ⟨150, none, none, 0⟩)]
/-- The label the scan actually writes at C. -/
def labC2 : Label := ⟨300, some c2A, some T1C2, 2⟩

def wA : Stop := ⟨71⟩
def wB : Stop := ⟨72⟩
/-- A minimal one-route network, scenario A of the specification. -/
def RW : Route := ⟨70, [wA, wB]⟩
def TW : Trip := ⟨73, RW, [(wA, 28800, 28800), (wB, 29400, 29400)]⟩
def rapW : RAPTOR := RAPTOR.init [RW] [TW]
/-- The scenario A journey. -/
def jW : Journey := ⟨wA, wB, 28800, 29400, [(wA, wB, TW)]⟩
/-- A stop that is on no route of the rapW network. -/
def sX : Stop := ⟨99⟩

def RC7 : Route := ⟨80, [⟨81⟩, ⟨82⟩]⟩
/-- The trip listed first, departing the first stop at 100. -/
def TbC7 : Trip := ⟨83, RC7, [(⟨81⟩, 100, 100), (⟨82⟩, 150, 150)]⟩
/-- The trip listed second, departing the first stop at 50. -/
def TaC7 : Trip := ⟨84, RC7, [(⟨81⟩, 50, 50), (⟨82⟩, 90, 90)]⟩
/-- C7 network: the trips arrive at the constructor out of departure
order. -/
def rapC7 : RAPTOR := RAPTOR.init [RC7] [TbC7, TaC7]

/-- Claim C10: query leaves the RAPTOR instance state unchanged: the
routes list, the trips list and both indices are identical before and
after the call.  The label tables and the marked set are local values
of the call and are not part of the instance state. -/
theorem c10_query_preserves_state (rap : RAPTOR) (o d : Stop) (t0 : Int) (K : Nat) :
    (queryS rap o d t0 K).1 = rap ∧
    (queryS rap o d t0 K).1.routes = rap.routes ∧
    (queryS rap o d t0 K).1.trips = rap.trips ∧
    (queryS rap o d t0 K).1.routes_at_stop = rap.routes_at_stop ∧
    (queryS rap o d t0 K).1.trips_on_route = rap.trips_on_route :=
  ⟨rfl, rfl, rfl, rfl, rfl⟩

/-- Claim C6 (code bug): on a specification-valid network, the returned
journey contains the leg (B, B, T2C6) whose from_stop and to_stop are
the same stop, so the from index is not strictly below the to index.
The trip is boarded at B at time 250 yet the journey claims arrival at
B at 150. -/
theorem c6_self_leg_eval :
    query rapC6 sA sB 100 2 = some jC6 ∧
    jC6.legs.getD 1 (sA, sA, T1C6) = (sB, sB, T2C6) ∧
    R2C6.get_stop_index sB = some 1 ∧
    T2C6.route = R2C6 := by
  refine ⟨by decide, by decide, by decide, by decide⟩

/-- Claim C9 (code bug): with origin = destination = O the source
returns a one-leg journey with arrival 150 before the requested
departure 200, instead of a zero-leg journey with arrival 200. -/
theorem c9_time_travel_eval :
    query rapC9 sO sO 200 2 = some jC9 ∧
    jC9.legs ≠ [] ∧ jC9.arrival_time ≠ jC9.departure_time := by
  refine ⟨by decide, by decide, by decide⟩

/-- Claim C4, counterexample: terminating when only the destination was
not improved changes the result; on the rapC4 network the early
terminated run returns the slow direct journey (arrival 1000) while the
full run returns the three-leg journey with arrival 400. -/
theorem c4_counterexample :
    query rapC4 s4A s4D 0 3 ≠ queryNoBreak rapC4 s4A s4D 0 3 := by decide

/-- Claim C5, counterexample: with an origin that is unknown to the
network (on no route) and distinct from the destination, query returns
the no-journey sentinel none instead of failing with an error; no
validation happens at the query boundary. -/
theorem c5_counterexample : query rapW sX wB 100 2 = none := by decide

/-- The departure time of a trip at the first stop of a route. -/
def firstStopDep (r : Route) (T : Trip) : Option Int :=
  match r.stops.head? with
  | none => none
  | some s => T.get_departure_time s

/-- Claim C7 as stated: after index construction every per-route trip
list is sorted by departure time at the first stop of the route. -/
def claimC7 : Prop :=
  ∀ (routes : List Route) (trips : List Trip) (r : Route),
    List.Chain'
      (fun a b => ∃ x y, firstStopDep r a = some x ∧ firstStopDep r b = some y ∧ x ≤ y)
      (tripsOfD (RAPTOR.init routes trips) r)

/-- Claim C7, counterexample: the index keeps the constructor order of
the trips, so feeding the trip departing at 100 before the trip
departing at 50 yields an unsorted bucket. -/
theorem c7_counterexample : ¬ claimC7 := by
  intro h
  have h2 := h [RC7] [TbC7, TaC7] RC7
  have e : tripsOfD (RAPTOR.init [RC7] [TbC7, TaC7]) RC7 = [TbC7, TaC7] := by decide
  rw [e] at h2
  obtain ⟨⟨x, y, hx, hy, hle⟩, -⟩ := List.chain'_cons.mp h2
  have e1 : firstStopDep RC7 TbC7 = some 100 := by decide
  have e2 : firstStopDep RC7 TaC7 = some 50 := by decide
  have hx2 : (100 : Int) = x := Option.some.inj (e1.symm.trans hx)
  have hy2 : (50 : Int) = y := Option.some.inj (e2.symm.trans hy)
  omega

theorem lookupNat_assocSet {α : Type} (idx : List (Nat × α)) (k : Nat) (v : α)
    (key : Nat) :
    lookupNat (assocSet idx k v) key = if k = key then some v else lookupNat idx key := by
  induction idx with
  | nil => simp only [assocSet, lookupNat]
  | cons p rest ih =>
    obtain ⟨k2, w⟩ := p
    by_cases h2 : k2 = k
    · subst h2
      simp only [assocSet, if_pos rfl, lookupNat]
      by_cases hk : k2 = key <;> simp [hk, lookupNat]
    · rw [show assocSet ((k2, w) :: rest) k v = (k2, w) :: assocSet rest k v from by
        simp [assocSet, h2]]
      simp only [lookupNat]
      by_cases hk : k2 = key
      · have hne : ¬ k = key := by omega
        simp [hk, hne]
      · simp [hk, ih]

theorem lookupNat_append_one {α : Type} (idx : List (Nat × α)) (k : Nat) (v : α)
    (key : Nat) (h : lookupNat idx key = none) :
    lookupNat (idx ++ [(k, v)]) key = if k = key then some v else none := by
  induction idx with
  | nil => simp only [List.nil_append, lookupNat]
  | cons p rest ih =>
    obtain ⟨k2, w⟩ := p
    by_cases h2 : k2 = key
    · rw [show lookupNat ((k2, w) :: rest) key = some w from by simp [lookupNat, h2]] at h
      exact absurd h (by simp)
    · have h3 : lookupNat rest key = none := by
        rw [show lookupNat ((k2, w) :: rest) key = lookupNat rest key from by
          simp [lookupNat, h2]] at h
        exact h
      rw [List.cons_append]
      rw [show lookupNat ((k2, w) :: (rest ++ [(k, v)])) key = lookupNat (rest ++ [(k, v)]) key
        from by simp [lookupNat, h2]]
      exact ih h3

theorem lookupNat_same_of_ne {α : Type} (idx : List (Nat × α)) (k : Nat) (v : α)
    (key : Nat) (h : ¬ k = key) :
    lookupNat (idx ++ [(k, v)]) key = lookupNat idx key := by
  induction idx with
  | nil => simp [lookupNat, h]
  | cons p rest ih =>
    obtain ⟨k2, w⟩ := p
    rw [List.cons_append]
    by_cases h2 : k2 = key <;> simp [lookupNat, h2, ih]

theorem lookup_indexAddTrip (idx : List (Nat × List Trip)) (T : Trip) (rid : Nat) :
    (lookupNat (indexAddTrip idx T) rid).getD [] =
      if T.route.route_id = rid then (lookupNat idx rid).getD [] ++ [T]
      else (lookupNat idx rid).getD [] := by
  unfold indexAddTrip
  cases hl : lookupNat idx T.route.route_id with
  | none =>
    by_cases hr : T.route.route_id = rid
    · have h0 : lookupNat idx rid = none := hr ▸ hl
      rw [lookupNat_append_one idx T.route.route_id [T] rid h0, if_pos hr, if_pos hr, h0]
      simp
    · rw [if_neg hr, lookupNat_same_of_ne idx T.route.route_id [T] rid hr]
  | some l =>
    rw [lookupNat_assocSet]
    by_cases hr : T.route.route_id = rid
    · have h0 : lookupNat idx rid = some l := hr ▸ hl
      rw [if_pos hr, if_pos hr, h0]
      simp
    · rw [if_neg hr, if_neg hr]

theorem buildTripIndex_fold (trips : List Trip) (idx : List (Nat × List Trip))
    (rid : Nat) :
    (lookupNat (trips.foldl indexAddTrip idx) rid).getD [] =
      (lookupNat idx rid).getD [] ++
        trips.filter (fun T => T.route.route_id == rid) := by
  induction trips generalizing idx with
  | nil => simp
  | cons T rest ih =>
    simp only [List.foldl_cons]
    rw [ih (indexAddTrip idx T), lookup_indexAddTrip]
    by_cases hr : T.route.route_id = rid
    · have hb : (T.route.route_id == rid) = true := by simp [hr]
      simp only [List.filter_cons, hb, if_pos hr]
      simp [List.append_assoc]
    · have hb : ¬ (T.route.route_id == rid) = true := by simp [hr]
      simp only [List.filter_cons, if_neg hr]
      simp [hb]

/-- Claim C7 amended: trips_on_route lists the trips of each route in
the order they appear in the input trips list, with no sorting. -/
theorem c7_trip_index_order (routes : List Route) (trips : List Trip) (r : Route) :
    tripsOfD (RAPTOR.init routes trips) r =
      trips.filter (fun T => T.route.route_id == r.route_id) := by
  unfold tripsOfD RAPTOR.init buildTripIndex
  simpa using buildTripIndex_fold trips [] r.route_id

theorem can_board_at_iff (T : Trip) (s : Stop) (t : Int) :
    T.can_board_at s t = true ↔ ∃ d, T.get_departure_time s = some d ∧ t ≤ d := by
  unfold Trip.can_board_at
  cases h : T.get_departure_time s with
  | none => simp
  | some d => simp [h]

theorem stLookup_some_mem (l : List (Stop × Int × Int)) (s : Stop) (a d : Int)
    (h : stLookup l s = some (a, d)) : (s, a, d) ∈ l := by
  induction l with
  | nil => simp [stLookup] at h
  | cons p rest ih =>
    obtain ⟨k, a2, d2⟩ := p
    by_cases hk : k = s
    · subst hk
      have h2 : a2 = a ∧ d2 = d := by simpa [stLookup] using h
      obtain ⟨ha, hd⟩ := h2
      subst ha; subst hd
      exact List.mem_cons_self _ _
    · rw [show stLookup ((k, a2, d2) :: rest) s = stLookup rest s from by
        simp [stLookup, hk]] at h
      exact List.mem_cons_of_mem _ (ih h)

theorem dep_some_key_mem (T : Trip) (s : Stop) (d : Int)
    (h : T.get_departure_time s = some d) : ∃ a, (s, a, d) ∈ T.stop_times := by
  unfold Trip.get_departure_time at h
  cases hl : stLookup T.stop_times s with
  | none => rw [hl] at h; simp at h
  | some p =>
    obtain ⟨a2, d2⟩ := p
    rw [hl] at h
    have hd : d2 = d := by simpa using h
    subst hd
    exact ⟨a2, stLookup_some_mem _ _ _ _ hl⟩

/-- The loop invariant of find_earliest_trip: the state is empty and no
seen trip is boardable, or it holds a seen boardable trip with the
minimal qualifying departure among the seen trips. -/
def FEInv (s : Stop) (t : Int) (seen : List Trip) : Option Trip × Option Int → Prop
  | (none, none) => ∀ T ∈ seen, T.can_board_at s t = false
  | (some T, some d) => T ∈ seen ∧ T.can_board_at s t = true ∧
      T.get_departure_time s = some d ∧
      ∀ T2 ∈ seen, ∀ d2, T2.get_departure_time s = some d2 → t ≤ d2 → d ≤ d2
  | (none, some _) => False
  | (some _, none) => False

theorem fe_step_inv (s : Stop) (t : Int) (seen : List Trip)
    (st : Option Trip × Option Int) (T : Trip) (h : FEInv s t seen st) :
    FEInv s t (seen ++ [T]) (feStep s t st T) := by
  obtain ⟨et, ed⟩ := st
  match et, ed with
  | none, some e => exact h.elim
  | some E, none => exact h.elim
  | none, none =>
    by_cases hb : T.can_board_at s t = true
    · obtain ⟨d, hdep, htd⟩ := (can_board_at_iff T s t).mp hb
      have hstep : feStep s t (none, none) T = (some T, some d) := by
        simp [feStep, hb, hdep]
      rw [hstep]
      refine ⟨List.mem_append_right _ (by simp), hb, hdep, ?_⟩
      intro T2 hT2 d2 hd2 ht2
      rcases List.mem_append.mp hT2 with h2 | h2
      · have hbt : T2.can_board_at s t = true :=
          (can_board_at_iff T2 s t).mpr ⟨d2, hd2, ht2⟩
        simp [h T2 h2] at hbt
      · have hTT : T2 = T := List.mem_singleton.mp h2
        subst hTT
        have : d = d2 := Option.some.inj (hdep ▸ hd2)
        omega
    · have hstep : feStep s t (none, none) T = (none, none) := by simp [feStep, hb]
      rw [hstep]
      intro T2 hT2
      rcases List.mem_append.mp hT2 with h2 | h2
      · exact h T2 h2
      · have hTT : T2 = T := List.mem_singleton.mp h2
        subst hTT
        rw [Bool.not_eq_true] at hb
        exact hb
  | some E, some e =>
    obtain ⟨hEm, hEb, hEd, hEmin⟩ := h
    by_cases hb : T.can_board_at s t = true
    · obtain ⟨d, hdep, htd⟩ := (can_board_at_iff T s t).mp hb
      by_cases hde : d < e
      · have hstep : feStep s t (some E, some e) T = (some T, some d) := by
          simp [feStep, hb, hdep, hde]
        rw [hstep]
        refine ⟨List.mem_append_right _ (by simp), hb, hdep, ?_⟩
        intro T2 hT2 d2 hd2 ht2
        rcases List.mem_append.mp hT2 with h2 | h2
        · exact le_trans (le_of_lt hde) (hEmin T2 h2 d2 hd2 ht2)
        · have hTT : T2 = T := List.mem_singleton.mp h2
          subst hTT
          have : d = d2 := Option.some.inj (hdep ▸ hd2)
          omega
      · have hstep : feStep s t (some E, some e) T = (some E, some e) := by
          simp [feStep, hb, hdep, hde]
        rw [hstep]
        refine ⟨List.mem_append_left _ hEm, hEb, hEd, ?_⟩
        intro T2 hT2 d2 hd2 ht2
        rcases List.mem_append.mp hT2 with h2 | h2
        · exact hEmin T2 h2 d2 hd2 ht2
        · have hTT : T2 = T := List.mem_singleton.mp h2
          subst hTT
          have : d = d2 := Option.some.inj (hdep ▸ hd2)
          omega
    · have hstep : feStep s t (some E, some e) T = (some E, some e) := by
        simp [feStep, hb]
      rw [hstep]
      refine ⟨List.mem_append_left _ hEm, hEb, hEd, ?_⟩
      intro T2 hT2 d2 hd2 ht2
      rcases List.mem_append.mp hT2 with h2 | h2
      · exact hEmin T2 h2 d2 hd2 ht2
      · have hTT : T2 = T := List.mem_singleton.mp h2
        subst hTT
        exact absurd ((can_board_at_iff T2 s t).mpr ⟨d2, hd2, ht2⟩) hb

theorem fe_fold_inv (s : Stop) (t : Int) :
    ∀ (l : List Trip) (seen : List Trip) (st : Option Trip × Option Int),
      FEInv s t seen st → FEInv s t (seen ++ l) (l.foldl (feStep s t) st)
  | [], seen, st, h => by simpa using h
  | T :: rest, seen, st, h => by
    have h2 := fe_step_inv s t seen st T h
    have h3 := fe_fold_inv s t rest (seen ++ [T]) (feStep s t st T) h2
    simpa [List.append_assoc] using h3

theorem find_eq_fold (rap : RAPTOR) (r : Route) (s : Stop) (t : Int) :
    find_earliest_trip rap r s t = ((tripsOfD rap r).foldl (feStep s t) (none, none)).1 := by
  unfold find_earliest_trip tripsOfD
  cases h : lookupNat rap.trips_on_route r.route_id with
  | none => simp [h]
  | some l => simp [h]

/-- Claim C1: find_earliest_trip returns a trip of the route whose
departure at the stop is at least the ready time and minimal among all
such trips; it returns none when no trip qualifies, and in particular
it returns none when the stop is not on the stop sequence of the route
(given the data-model invariant that the stop-time keys of every trip
of the route lie on the route). -/
theorem c1_find_earliest_trip_correct (rap : RAPTOR) (r : Route) (s : Stop) (t : Int) :
    (∀ T, find_earliest_trip rap r s t = some T →
      T ∈ tripsOfD rap r ∧ ∃ d, T.get_departure_time s = some d ∧ t ≤ d ∧
        ∀ T2 ∈ tripsOfD rap r, ∀ d2, T2.get_departure_time s = some d2 → t ≤ d2 → d ≤ d2) ∧
    (find_earliest_trip rap r s t = none →
      ∀ T2 ∈ tripsOfD rap r, ∀ d2, T2.get_departure_time s = some d2 → t ≤ d2 → False) ∧
    ((∀ T2 ∈ tripsOfD rap r, ∀ pr ∈ T2.stop_times, pr.1 ∈ r.stops) → s ∉ r.stops →
      find_earliest_trip rap r s t = none) := by
  have hinv := fe_fold_inv s t (tripsOfD rap r) [] (none, none) (by intro T hT; simp at hT)
  rw [List.nil_append] at hinv
  rcases hfold : (tripsOfD rap r).foldl (feStep s t) (none, none) with ⟨et, ed⟩
  rw [hfold] at hinv
  have hfind : find_earliest_trip rap r s t = et := by rw [find_eq_fold, hfold]
  refine ⟨?_, ?_, ?_⟩
  · intro T hT
    rw [hfind] at hT
    cases ed with
    | none =>
      cases et with
      | none => exact Option.noConfusion hT
      | some E => exact hinv.elim
    | some e =>
      cases et with
      | none => exact Option.noConfusion hT
      | some E =>
        have hET : E = T := Option.some.inj hT
        subst hET
        obtain ⟨hm, hbd, hdep, hmin⟩ := hinv
        obtain ⟨d, hdp2, htd⟩ := (can_board_at_iff E s t).mp hbd
        have hde : d = e := Option.some.inj (hdp2 ▸ hdep)
        exact ⟨hm, e, hdep, by omega, hmin⟩
  · intro hN
    rw [hfind] at hN
    subst hN
    cases ed with
    | some e => exact hinv.elim
    | none =>
      intro T2 h2 d2 hd2 ht2
      have hbt : T2.can_board_at s t = true :=
        (can_board_at_iff T2 s t).mpr ⟨d2, hd2, ht2⟩
      simp [hinv T2 h2] at hbt
  · intro hdom hs
    rw [hfind]
    cases et with
    | none => rfl
    | some E =>
      cases ed with
      | none => exact hinv.elim
      | some e =>
        obtain ⟨hm, hbd, hdep, -⟩ := hinv
        obtain ⟨d, hdp2, -⟩ := (can_board_at_iff E s t).mp hbd
        obtain ⟨a, hmem⟩ := dep_some_key_mem E s d hdp2
        exact absurd (hdom E hm (s, a, d) hmem) hs

/-- Witness for C1 at a concrete input: the stop sX is not on route RW,
and the data-model hypothesis holds for the rapW network, so the search
returns none. -/
theorem c1_witness : find_earliest_trip rapW RW sX 28800 = none :=
  (c1_find_earliest_trip_correct rapW RW sX 28800).2.2 (by decide) (by decide)

theorem lookupL_insertL (mp : LabelMap) (s0 : Stop) (lab : Label) (s : Stop) :
    lookupL (insertL mp s0 lab) s = if s0 = s then some lab else lookupL mp s := by
  induction mp with
  | nil => simp only [insertL, lookupL]
  | cons p rest ih =>
    obtain ⟨k2, v⟩ := p
    by_cases h2 : k2 = s0
    · subst h2
      simp only [insertL, if_pos rfl, lookupL]
      by_cases hk : k2 = s <;> simp [hk, lookupL]
    · rw [show insertL ((k2, v) :: rest) s0 lab = (k2, v) :: insertL rest s0 lab from by
        simp [insertL, h2]]
      simp only [lookupL]
      by_cases hk : k2 = s
      · have hne : ¬ s0 = s := fun h3 => h2 (by rw [hk, h3])
        simp [hk, hne]
      · simp [hk, ih]

/-- A label freshly written by the trip walk: it carries round k, the
walked trip, a boarding stop that was boardable against its
previous-round label, and the arrival of the trip at the stop. -/
def WalkNew (prev : LabelMap) (k : Nat) (T : Trip) (s : Stop) (lab : Label) : Prop :=
  lab.round = k ∧ lab.trip = some T ∧
  ∃ b, lab.previous_stop = some b ∧
    (∃ labb, lookupL prev b = some labb ∧ T.can_board_at b labb.arrival_time = true) ∧
    ∃ a, T.get_arrival_time s = some a ∧ lab.arrival_time = a

theorem walk_fold_ext (prev base : LabelMap) (k : Nat) (T : Trip) :
    ∀ (stops : List Stop) (bo : Option Stop) (cur : LabelMap) (m : List Stop),
      (∀ b, bo = some b →
        ∃ labb, lookupL prev b = some labb ∧ T.can_board_at b labb.arrival_time = true) →
      (∀ s lab, lookupL cur s = some lab →
        lookupL base s = some lab ∨ WalkNew prev k T s lab) →
      ∀ s lab, lookupL ((stops.foldl (walkStep prev k T) (bo, cur, m)).2.1) s = some lab →
        lookupL base s = some lab ∨ WalkNew prev k T s lab := by
  intro stops
  induction stops with
  | nil => intro bo cur m hbo hcur s lab h; exact hcur s lab h
  | cons s0 rest ih =>
    intro bo cur m hbo hcur s lab h
    rw [List.foldl_cons] at h
    cases bo with
    | some b =>
      cases harr : T.get_arrival_time s0 with
      | none =>
        have hstep : walkStep prev k T (some b, cur, m) s0 = (some b, cur, m) := by
          simp [walkStep, harr]
        rw [hstep] at h
        exact ih (some b) cur m hbo hcur s lab h
      | some a =>
        by_cases hbet :
            (Label.mk a (some b) (some T) k).is_better_than (lookupL cur s0) = true
        · have hstep : walkStep prev k T (some b, cur, m) s0 =
              (some b, insertL cur s0 ⟨a, some b, some T, k⟩, addMark m s0) := by
            simp [walkStep, harr, hbet]
          rw [hstep] at h
          refine ih (some b) _ _ hbo ?_ s lab h
          intro s3 lab3 h3
          rw [lookupL_insertL] at h3
          by_cases hs3 : s0 = s3
          · rw [if_pos hs3] at h3
            right
            have hlab3 : lab3 = ⟨a, some b, some T, k⟩ := (Option.some.inj h3).symm
            subst hlab3
            obtain ⟨labb, hlb, hcb⟩ := hbo b rfl
            exact ⟨rfl, rfl, b, rfl, ⟨labb, hlb, hcb⟩, a, hs3 ▸ harr, rfl⟩
          · rw [if_neg hs3] at h3
            exact hcur s3 lab3 h3
        · have hstep : walkStep prev k T (some b, cur, m) s0 = (some b, cur, m) := by
            simp [walkStep, harr, hbet]
          rw [hstep] at h
          exact ih (some b) cur m hbo hcur s lab h
    | none =>
      cases hlk : lookupL prev s0 with
      | none =>
        have hstep : walkStep prev k T (none, cur, m) s0 = (none, cur, m) := by
          simp [walkStep, hlk]
        rw [hstep] at h
        exact ih none cur m hbo hcur s lab h
      | some lab0 =>
        by_cases hcb : T.can_board_at s0 lab0.arrival_time = true
        · have hbo2 : ∀ b2, (some s0 : Option Stop) = some b2 →
              ∃ labb, lookupL prev b2 = some labb ∧
                T.can_board_at b2 labb.arrival_time = true := by
            intro b2 hb2
            cases Option.some.inj hb2
            exact ⟨lab0, hlk, hcb⟩
          cases harr : T.get_arrival_time s0 with
          | none =>
            have hstep : walkStep prev k T (none, cur, m) s0 = (some s0, cur, m) := by
              simp [walkStep, hlk, hcb, harr]
            rw [hstep] at h
            exact ih (some s0) cur m hbo2 hcur s lab h
          | some a =>
            by_cases hbet :
                (Label.mk a (some s0) (some T) k).is_better_than (lookupL cur s0) = true
            · have hstep : walkStep prev k T (none, cur, m) s0 =
                  (some s0, insertL cur s0 ⟨a, some s0, some T, k⟩, addMark m s0) := by
                simp [walkStep, hlk, hcb, harr, hbet]
              rw [hstep] at h
              refine ih (some s0) _ _ hbo2 ?_ s lab h
              intro s3 lab3 h3
              rw [lookupL_insertL] at h3
              by_cases hs3 : s0 = s3
              · rw [if_pos hs3] at h3
                right
                have hlab3 : lab3 = ⟨a, some s0, some T, k⟩ := (Option.some.inj h3).symm
                subst hlab3
                exact ⟨rfl, rfl, s0, rfl, ⟨lab0, hlk, hcb⟩, a, hs3 ▸ harr, rfl⟩
              · rw [if_neg hs3] at h3
                exact hcur s3 lab3 h3
            · have hstep : walkStep prev k T (none, cur, m) s0 = (some s0, cur, m) := by
                simp [walkStep, hlk, hcb, harr, hbet]
              rw [hstep] at h
              exact ih (some s0) cur m hbo2 hcur s lab h
        · have hstep : walkStep prev k T (none, cur, m) s0 = (none, cur, m) := by
            simp [walkStep, hlk, hcb]
          rw [hstep] at h
          exact ih none cur m hbo hcur s lab h

/-- A label freshly written by the scan of one route: it carries the
single trip selected by find_earliest_trip at the hop-on stop of the
route, together with its boarding facts. -/
def ScanNew (rap : RAPTOR) (prev : LabelMap) (k : Nat) (r : Route) (s : Stop)
    (lab : Label) : Prop :=
  lab.round = k ∧ ∃ bs bt T, findEarliestBoarding prev r.stops = some (bs, bt) ∧
    find_earliest_trip rap r bs bt = some T ∧ lab.trip = some T ∧
    ∃ b, lab.previous_stop = some b ∧
      (∃ labb, lookupL prev b = some labb ∧ T.can_board_at b labb.arrival_time = true) ∧
      ∃ a, T.get_arrival_time s = some a ∧ lab.arrival_time = a

theorem scanRoute_ext (rap : RAPTOR) (prev : LabelMap) (k : Nat)
    (st : LabelMap × List Stop) (r : Route) (s : Stop) (lab : Label)
    (h : lookupL (scanRoute rap prev k st r).1 s = some lab) :
    lookupL st.1 s = some lab ∨ ScanNew rap prev k r s lab := by
  unfold scanRoute at h
  cases heb : findEarliestBoarding prev r.stops with
  | none =>
    simp only [heb] at h
    exact Or.inl h
  | some p =>
    obtain ⟨bs, bt⟩ := p
    simp only [heb] at h
    cases hft : find_earliest_trip rap r bs bt with
    | none =>
      simp only [hft] at h
      exact Or.inl h
    | some T =>
      simp only [hft] at h
      have h2 := walk_fold_ext prev st.1 k T r.stops none st.1 st.2
        (by intro b hb; exact Option.noConfusion hb)
        (fun s3 lab3 h3 => Or.inl h3) s lab h
      rcases h2 with h2 | h2
      · exact Or.inl h2
      · right
        obtain ⟨hr, htr, b, hp, hbfact, a, harr, hat⟩ := h2
        exact ⟨hr, bs, bt, T, heb, hft, htr, b, hp, hbfact, a, harr, hat⟩

/-- Claim C2 as stated: during a route scan that has boarded trip T at
the hop-on, if a later stop s of the route has a previous-round label
with which an earlier trip T2 of the route can be caught (T2 departs s
at or after that label and arrives at a downstream stop s2 earlier than
T), then the scan swaps to T2, so the resulting label at s2 is at most
the arrival of T2. -/
def claimC2 : Prop :=
  ∀ (rap : RAPTOR) (prev : LabelMap) (k : Nat) (st : LabelMap × List Stop) (r : Route)
    (bs : Stop) (bt : Int) (T T2 : Trip) (pre mid post : List Stop) (s s2 : Stop)
    (labS : Label) (a a2 : Int),
    r.stops = pre ++ bs :: mid ++ s :: post →
    s2 ∈ post →
    findEarliestBoarding prev r.stops = some (bs, bt) →
    find_earliest_trip rap r bs bt = some T →
    T2 ∈ tripsOfD rap r →
    lookupL prev s = some labS →
    T2.can_board_at s labS.arrival_time = true →
    T2.get_arrival_time s2 = some a2 →
    T.get_arrival_time s2 = some a →
    a2 < a →
    ∀ lab2, lookupL (scanRoute rap prev k st r).1 s2 = some lab2 →
      lab2.arrival_time ≤ a2

/-- Claim C2, counterexample: on the rapC2 network the scan boards
T1C2 at A, stop B has a previous-round label at 150 that permits
catching T2C2 (departing B at 160 and reaching C at 200 instead of
300), yet the scan leaves trip and boarding stop unchanged and writes
arrival 300 at C. -/
theorem c2_counterexample : ¬ claimC2 := by
  intro h
  have h2 := h rapC2 prevC2 2 (prevC2, []) RC2 c2A 100 T1C2 T2C2 [] [] [c2C] c2B c2C
      ⟨150, none, none, 0⟩ 300 200 (by decide) (by decide) (by decide) (by decide)
      (by decide) (by decide) (by decide) (by decide) (by decide) (by decide)
  have h3 := h2 labC2 (by decide)
  exact absurd h3 (by decide)

/-- Claim C2 amended: the scanner never swaps.  Every label written
during the scan of a route carries exactly the trip selected by
find_earliest_trip at the hop-on stop, and a boarding stop fixed at
the first stop of the walk where that trip was boardable; labels not
written by this scan are unchanged. -/
theorem c2_no_swap (rap : RAPTOR) (prev : LabelMap) (k : Nat) (cur : LabelMap)
    (m : List Stop) (r : Route) (s : Stop) (lab : Label)
    (h : lookupL (scanRoute rap prev k (cur, m) r).1 s = some lab) :
    lookupL cur s = some lab ∨ ScanNew rap prev k r s lab :=
  scanRoute_ext rap prev k (cur, m) r s lab h

/-- Witness for the amended C2 at the concrete rapC2 scan: the label
written at C exists and satisfies the no-swap characterisation. -/
theorem c2_witness :
    lookupL (scanRoute rapC2 prevC2 2 (prevC2, []) RC2).1 c2C = some labC2 ∧
    (lookupL prevC2 c2C = some labC2 ∨ ScanNew rapC2 prevC2 2 RC2 c2C labC2) :=
  ⟨by decide, c2_no_swap rapC2 prevC2 2 prevC2 [] RC2 c2C labC2 (by decide)⟩

/-- The arrival time stored at a stop, if any. -/
def arrivalOfD (mp : LabelMap) (s : Stop) : Option Int :=
  (lookupL mp s).map Label.arrival_time

/-- The earliest-wins merge on optional arrival times. -/
def mergeO : Option Int → Option Int → Option Int
  | none, b => b
  | some x, none => some x
  | some x, some y => some (min x y)

theorem mergeO_none_right (a : Option Int) : mergeO a none = a := by
  cases a <;> rfl

theorem mergeO_assoc (a b c : Option Int) :
    mergeO (mergeO a b) c = mergeO a (mergeO b c) := by
  cases a <;> cases b <;> cases c <;> simp [mergeO, min_assoc]

theorem mergeO_comm (a b : Option Int) : mergeO a b = mergeO b a := by
  cases a <;> cases b <;> simp [mergeO, min_comm]

/-- The candidate labels a trip walk over the given stops would offer,
regardless of whether the earliest-wins guard accepts each; the walk
itself only reads the previous-round labels, so this list does not
depend on the current-round table. -/
def walkProps (prev : LabelMap) (k : Nat) (T : Trip) : Option Stop → List Stop →
    List (Stop × Label)
  | _, [] => []
  | bo, s :: rest =>
    let bo2 : Option Stop :=
      match bo with
      | some b => some b
      | none =>
        match lookupL prev s with
        | some lab => if T.can_board_at s lab.arrival_time then some s else none
        | none => none
    match bo2 with
    | none => walkProps prev k T none rest
    | some b =>
      match T.get_arrival_time s with
      | none => walkProps prev k T (some b) rest
      | some a => (s, ⟨a, some b, some T, k⟩) :: walkProps prev k T (some b) rest

/-- The candidate labels offered by the scan of one route. -/
def proposalsOf (rap : RAPTOR) (prev : LabelMap) (k : Nat) (r : Route) :
    List (Stop × Label) :=
  match findEarliestBoarding prev r.stops with
  | none => []
  | some (bs, bt) =>
    match find_earliest_trip rap r bs bt with
    | none => []
    | some T => walkProps prev k T none r.stops

/-- The best offered arrival at a stop among a list of candidates. -/
def bestAt (props : List (Stop × Label)) (s : Stop) : Option Int :=
  props.foldl (fun acc p => if p.1 = s then mergeO acc (some p.2.arrival_time) else acc) none

theorem bestAt_acc (s : Stop) (props : List (Stop × Label)) :
    ∀ acc, props.foldl
        (fun acc p => if p.1 = s then mergeO acc (some p.2.arrival_time) else acc) acc =
      mergeO acc (bestAt props s) := by
  induction props with
  | nil => intro acc; simp [bestAt, mergeO_none_right]
  | cons p rest ih =>
    intro acc
    rw [List.foldl_cons]
    rw [ih]
    conv_rhs => rw [bestAt, List.foldl_cons, ih]
    by_cases hp : p.1 = s
    · simp only [hp, if_pos rfl, if_true]
      rw [show mergeO (none : Option Int) (some p.2.arrival_time) = some p.2.arrival_time
        from rfl]
      rw [← mergeO_assoc]
    · simp only [hp, if_false, if_neg hp]
      rfl

theorem bestAt_cons (s0 : Stop) (nl : Label) (props : List (Stop × Label)) (s : Stop) :
    bestAt ((s0, nl) :: props) s =
      mergeO (if s0 = s then some nl.arrival_time else none) (bestAt props s) := by
  rw [bestAt, List.foldl_cons, bestAt_acc]
  by_cases hp : s0 = s
  · rw [if_pos hp, if_pos hp]
    rfl
  · rw [if_neg hp, if_neg hp]

theorem is_better_than_some (l : Label) (o : Label) :
    l.is_better_than (some o) = true ↔ l.arrival_time < o.arrival_time := by
  simp [Label.is_better_than]

theorem is_better_than_none (l : Label) : l.is_better_than none = true := rfl

theorem write_merge_true (cur : LabelMap) (s0 : Stop) (nl : Label) (s : Stop)
    (X : Option Int) (hbet : nl.is_better_than (lookupL cur s0) = true) :
    mergeO (arrivalOfD (insertL cur s0 nl) s) X =
      mergeO (arrivalOfD cur s)
        (mergeO (if s0 = s then some nl.arrival_time else none) X) := by
  by_cases hs : s0 = s
  · rw [if_pos hs]
    have hins : arrivalOfD (insertL cur s0 nl) s = some nl.arrival_time := by
      rw [arrivalOfD, lookupL_insertL, if_pos hs]
      rfl
    rw [hins]
    cases hlO : lookupL cur s0 with
    | none =>
      have : arrivalOfD cur s = none := by rw [arrivalOfD, ← hs, hlO]; rfl
      rw [this]
      rfl
    | some old =>
      have hlt : nl.arrival_time < old.arrival_time := by
        have h2 := hbet
        rw [hlO] at h2
        exact (is_better_than_some nl old).mp h2
      have : arrivalOfD cur s = some old.arrival_time := by
        rw [arrivalOfD, ← hs, hlO]; rfl
      rw [this, ← mergeO_assoc]
      rw [show mergeO (some old.arrival_time) (some nl.arrival_time) =
        some nl.arrival_time from by simp [mergeO, min_eq_right (le_of_lt hlt)]]
  · rw [if_neg hs]
    have hins : arrivalOfD (insertL cur s0 nl) s = arrivalOfD cur s := by
      rw [arrivalOfD, lookupL_insertL, if_neg hs]; rfl
    rw [hins]
    rfl

theorem write_merge_false (cur : LabelMap) (s0 : Stop) (nl : Label) (s : Stop)
    (X : Option Int) (hbet : ¬ nl.is_better_than (lookupL cur s0) = true) :
    mergeO (arrivalOfD cur s) X =
      mergeO (arrivalOfD cur s)
        (mergeO (if s0 = s then some nl.arrival_time else none) X) := by
  by_cases hs : s0 = s
  · rw [if_pos hs]
    cases hlO : lookupL cur s0 with
    | none =>
      rw [hlO] at hbet
      exact absurd (is_better_than_none nl) hbet
    | some old =>
      have hge : old.arrival_time ≤ nl.arrival_time := by
        rw [hlO] at hbet
        have h2 : ¬ nl.arrival_time < old.arrival_time :=
          fun h3 => hbet ((is_better_than_some nl old).mpr h3)
        omega
      have : arrivalOfD cur s = some old.arrival_time := by
        rw [arrivalOfD, ← hs, hlO]; rfl
      rw [this, ← mergeO_assoc]
      rw [show mergeO (some old.arrival_time) (some nl.arrival_time) =
        some old.arrival_time from by simp [mergeO, min_eq_left hge]]
  · rw [if_neg hs]
    rfl

theorem walk_merge (prev : LabelMap) (k : Nat) (T : Trip) :
    ∀ (stops : List Stop) (bo : Option Stop) (cur : LabelMap) (m : List Stop) (s : Stop),
      arrivalOfD ((stops.foldl (walkStep prev k T) (bo, cur, m)).2.1) s =
        mergeO (arrivalOfD cur s) (bestAt (walkProps prev k T bo stops) s) := by
  intro stops
  induction stops with
  | nil =>
    intro bo cur m s
    simp [walkProps, bestAt, mergeO_none_right]
  | cons s0 rest ih =>
    intro bo cur m s
    rw [List.foldl_cons]
    cases bo with
    | some b =>
      cases harr : T.get_arrival_time s0 with
      | none =>
        have hstep : walkStep prev k T (some b, cur, m) s0 = (some b, cur, m) := by
          simp [walkStep, harr]
        have hprop : walkProps prev k T (some b) (s0 :: rest) =
            walkProps prev k T (some b) rest := by
          simp [walkProps, harr]
        rw [hstep, hprop, ih]
      | some a =>
        have hprop : walkProps prev k T (some b) (s0 :: rest) =
            (s0, ⟨a, some b, some T, k⟩) :: walkProps prev k T (some b) rest := by
          simp [walkProps, harr]
        rw [hprop, bestAt_cons]
        by_cases hbet :
            (Label.mk a (some b) (some T) k).is_better_than (lookupL cur s0) = true
        · have hstep : walkStep prev k T (some b, cur, m) s0 =
              (some b, insertL cur s0 ⟨a, some b, some T, k⟩, addMark m s0) := by
            simp [walkStep, harr, hbet]
          rw [hstep, ih]
          exact write_merge_true cur s0 ⟨a, some b, some T, k⟩ s _ hbet
        · have hstep : walkStep prev k T (some b, cur, m) s0 = (some b, cur, m) := by
            simp [walkStep, harr, hbet]
          rw [hstep, ih]
          exact write_merge_false cur s0 ⟨a, some b, some T, k⟩ s _ hbet
    | none =>
      cases hlk : lookupL prev s0 with
      | none =>
        have hstep : walkStep prev k T (none, cur, m) s0 = (none, cur, m) := by
          simp [walkStep, hlk]
        have hprop : walkProps prev k T none (s0 :: rest) = walkProps prev k T none rest := by
          simp [walkProps, hlk]
        rw [hstep, hprop, ih]
      | some lab0 =>
        by_cases hcb : T.can_board_at s0 lab0.arrival_time = true
        · cases harr : T.get_arrival_time s0 with
          | none =>
            have hstep : walkStep prev k T (none, cur, m) s0 = (some s0, cur, m) := by
              simp [walkStep, hlk, hcb, harr]
            have hprop : walkProps prev k T none (s0 :: rest) =
                walkProps prev k T (some s0) rest := by
              simp [walkProps, hlk, hcb, harr]
            rw [hstep, hprop, ih]
          | some a =>
            have hprop : walkProps prev k T none (s0 :: rest) =
                (s0, ⟨a, some s0, some T, k⟩) :: walkProps prev k T (some s0) rest := by
              simp [walkProps, hlk, hcb, harr]
            rw [hprop, bestAt_cons]
            by_cases hbet :
                (Label.mk a (some s0) (some T) k).is_better_than (lookupL cur s0) = true
            · have hstep : walkStep prev k T (none, cur, m) s0 =
                  (some s0, insertL cur s0 ⟨a, some s0, some T, k⟩, addMark m s0) := by
                simp [walkStep, hlk, hcb, harr, hbet]
              rw [hstep, ih]
              exact write_merge_true cur s0 ⟨a, some s0, some T, k⟩ s _ hbet
            · have hstep : walkStep prev k T (none, cur, m) s0 = (some s0, cur, m) := by
                simp [walkStep, hlk, hcb, harr, hbet]
              rw [hstep, ih]
              exact write_merge_false cur s0 ⟨a, some s0, some T, k⟩ s _ hbet
        · have hstep : walkStep prev k T (none, cur, m) s0 = (none, cur, m) := by
            simp [walkStep, hlk, hcb]
          have hprop : walkProps prev k T none (s0 :: rest) =
              walkProps prev k T none rest := by
            simp [walkProps, hlk, hcb]
          rw [hstep, hprop, ih]

theorem scan_merge (rap : RAPTOR) (prev : LabelMap) (k : Nat) (cur : LabelMap)
    (m : List Stop) (r : Route) (s : Stop) :
    arrivalOfD ((scanRoute rap prev k (cur, m) r).1) s =
      mergeO (arrivalOfD cur s) (bestAt (proposalsOf rap prev k r) s) := by
  cases heb : findEarliestBoarding prev r.stops with
  | none =>
    have h1 : scanRoute rap prev k (cur, m) r = (cur, m) := by simp [scanRoute, heb]
    have h2 : proposalsOf rap prev k r = [] := by simp [proposalsOf, heb]
    rw [h1, h2]
    simp [bestAt, mergeO_none_right]
  | some p =>
    obtain ⟨bs, bt⟩ := p
    cases hft : find_earliest_trip rap r bs bt with
    | none =>
      have h1 : scanRoute rap prev k (cur, m) r = (cur, m) := by simp [scanRoute, heb, hft]
      have h2 : proposalsOf rap prev k r = [] := by simp [proposalsOf, heb, hft]
      rw [h1, h2]
      simp [bestAt, mergeO_none_right]
    | some T =>
      have h1 : (scanRoute rap prev k (cur, m) r).1 =
          (r.stops.foldl (walkStep prev k T) (none, cur, m)).2.1 := by
        simp [scanRoute, heb, hft]
      have h2 : proposalsOf rap prev k r = walkProps prev k T none r.stops := by
        simp [proposalsOf, heb, hft]
      rw [h1, h2]
      exact walk_merge prev k T r.stops none cur m s

/-- The best offered arrival at a stop over a list of routes. -/
def routesBest (rap : RAPTOR) (prev : LabelMap) (k : Nat) (routes : List Route)
    (s : Stop) : Option Int :=
  routes.foldl (fun acc r => mergeO acc (bestAt (proposalsOf rap prev k r) s)) none

theorem routesBest_acc (rap : RAPTOR) (prev : LabelMap) (k : Nat) (s : Stop)
    (routes : List Route) :
    ∀ acc, routes.foldl (fun acc r => mergeO acc (bestAt (proposalsOf rap prev k r) s)) acc =
      mergeO acc (routesBest rap prev k routes s) := by
  induction routes with
  | nil => intro acc; simp [routesBest, mergeO_none_right]
  | cons r rest ih =>
    intro acc
    rw [List.foldl_cons, ih]
    conv_rhs => rw [routesBest, List.foldl_cons, ih]
    rw [← mergeO_assoc]
    rfl

theorem fold_scan_merge (rap : RAPTOR) (prev : LabelMap) (k : Nat) :
    ∀ (routes : List Route) (cur : LabelMap) (m : List Stop) (s : Stop),
      arrivalOfD ((routes.foldl (scanRoute rap prev k) (cur, m)).1) s =
        mergeO (arrivalOfD cur s) (routesBest rap prev k routes s) := by
  intro routes
  induction routes with
  | nil => intro cur m s; simp [routesBest, mergeO_none_right]
  | cons r rest ih =>
    intro cur m s
    rw [List.foldl_cons]
    rcases hsc : scanRoute rap prev k (cur, m) r with ⟨cur2, m2⟩
    have h2 : arrivalOfD cur2 s =
        mergeO (arrivalOfD cur s) (bestAt (proposalsOf rap prev k r) s) := by
      rw [← scan_merge rap prev k cur m r s, hsc]
    rw [ih cur2 m2 s, h2]
    conv_rhs => rw [routesBest, List.foldl_cons]
    rw [routesBest_acc]
    rw [mergeO_assoc]
    rfl

theorem foldl_mergeO_perm {α : Type} (f : α → Option Int) {l1 l2 : List α}
    (h : l1.Perm l2) :
    ∀ acc, l1.foldl (fun a x => mergeO a (f x)) acc =
      l2.foldl (fun a x => mergeO a (f x)) acc := by
  induction h with
  | nil => intro acc; rfl
  | cons x _ ih => intro acc; rw [List.foldl_cons, List.foldl_cons]; exact ih _
  | swap x y l =>
    intro acc
    rw [List.foldl_cons, List.foldl_cons, List.foldl_cons, List.foldl_cons]
    rw [mergeO_assoc, mergeO_assoc, mergeO_comm (f y) (f x)]
  | trans _ _ ih1 ih2 => intro acc; exact (ih1 acc).trans (ih2 acc)

/-- Claim C8: within one round, scanning the same set of routes in any
two orders from the same previous-round state produces the same
arrival time at every stop. -/
theorem c8_scan_order_irrelevant (rap : RAPTOR) (prev : LabelMap) (k : Nat)
    (l1 l2 : List Route) (hp : l1.Perm l2) (s : Stop) :
    arrivalOfD ((l1.foldl (scanRoute rap prev k) (prev, [])).1) s =
      arrivalOfD ((l2.foldl (scanRoute rap prev k) (prev, [])).1) s := by
  rw [fold_scan_merge rap prev k l1 prev [] s, fold_scan_merge rap prev k l2 prev [] s]
  rw [show routesBest rap prev k l1 s = routesBest rap prev k l2 s from
    foldl_mergeO_perm (fun r => bestAt (proposalsOf rap prev k r) s) hp none]

/-- Previous-round state used by the C8 witness. -/
def prevC8 : LabelMap := [(sA, ⟨100, none, none, 0⟩)]

/-- Witness for C8 on the rapC6 network: the two routes scanned in both
orders give the same arrival at stop B. -/
theorem c8_witness :
    List.Perm [R1C6, R2C6] [R2C6, R1C6] ∧
    arrivalOfD (([R1C6, R2C6].foldl (scanRoute rapC6 prevC8 1) (prevC8, [])).1) sB =
      arrivalOfD (([R2C6, R1C6].foldl (scanRoute rapC6 prevC8 1) (prevC8, [])).1) sB :=
  ⟨List.Perm.swap R2C6 R1C6 [],
    c8_scan_order_irrelevant rapC6 prevC8 1 [R1C6, R2C6] [R2C6, R1C6]
      (List.Perm.swap R2C6 R1C6 []) sB⟩

theorem stop_eq_of_id (s o : Stop) (h : s.stop_id = o.stop_id) : s = o := by
  cases s; cases o; cases h; rfl

theorem indexAddRoute_lookup_none (idx : List (Nat × List Route)) (s : Stop) (r : Route)
    (key : Nat) (hne : ¬ s.stop_id = key) (h : lookupNat idx key = none) :
    lookupNat (indexAddRoute idx s r) key = none := by
  cases hl : lookupNat idx s.stop_id with
  | none =>
    rw [show indexAddRoute idx s r = idx ++ [(s.stop_id, [r])] from by
      simp [indexAddRoute, hl]]
    rw [lookupNat_same_of_ne idx s.stop_id [r] key hne]
    exact h
  | some l =>
    by_cases hm : routeMemB r l = true
    · rw [show indexAddRoute idx s r = idx from by simp [indexAddRoute, hl, hm]]
      exact h
    · rw [show indexAddRoute idx s r = assocSet idx s.stop_id (l ++ [r]) from by
        simp [indexAddRoute, hl, hm]]
      rw [lookupNat_assocSet, if_neg hne]
      exact h

theorem inner_route_fold_none (stops : List Stop) (r : Route)
    (idx : List (Nat × List Route)) (key : Nat)
    (hs : ∀ s ∈ stops, ¬ s.stop_id = key) (h : lookupNat idx key = none) :
    lookupNat (stops.foldl (fun idx2 s => indexAddRoute idx2 s r) idx) key = none := by
  induction stops generalizing idx with
  | nil => exact h
  | cons s rest ih =>
    rw [List.foldl_cons]
    exact ih (indexAddRoute idx s r)
      (fun s2 h2 => hs s2 (List.mem_cons_of_mem _ h2))
      (indexAddRoute_lookup_none idx s r key (hs s (List.mem_cons_self _ _)) h)

theorem buildRouteIndex_none (routes : List Route) (o : Stop)
    (hor : ∀ r ∈ routes, o ∉ r.stops) :
    lookupNat (buildRouteIndex routes) o.stop_id = none := by
  unfold buildRouteIndex
  have hgen : ∀ (l : List Route) (idx : List (Nat × List Route)),
      (∀ r ∈ l, o ∉ r.stops) → lookupNat idx o.stop_id = none →
      lookupNat (l.foldl
        (fun idx r => r.stops.foldl (fun idx2 s => indexAddRoute idx2 s r) idx) idx)
        o.stop_id = none := by
    intro l
    induction l with
    | nil => intro idx _ h; exact h
    | cons r rest ih =>
      intro idx hl h
      rw [List.foldl_cons]
      refine ih _ (fun r2 h2 => hl r2 (List.mem_cons_of_mem _ h2)) ?_
      refine inner_route_fold_none r.stops r idx o.stop_id ?_ h
      intro s hsm hsid
      exact hl r (List.mem_cons_self _ _) (stop_eq_of_id s o hsid ▸ hsm)
  exact hgen routes [] hor rfl

theorem roundStep_empty_marked (rap : RAPTOR) (prev : LabelMap) (k : Nat) :
    roundStep rap prev [] k = (prev, []) := rfl

theorem roundStep_unserved (rap : RAPTOR) (prev : LabelMap) (o : Stop) (k : Nat)
    (h : lookupNat rap.routes_at_stop o.stop_id = none) :
    roundStep rap prev [o] k = (prev, []) := by
  unfold roundStep collectRoutes
  simp [routesOfD, h]

theorem runAux_stuck (rap : RAPTOR) (d : Stop) (prev : LabelMap)
    (hd : lookupL prev d = none) :
    ∀ (n k : Nat), runAux rap d prev [] k n = List.replicate n prev := by
  intro n
  induction n with
  | zero => intro k; rfl
  | succ n ih =>
    intro k
    rw [runAux_succ _ _ _ _ _ _ _ _ (roundStep_empty_marked rap prev k)]
    rw [if_neg (by simp [hd])]
    rw [ih (k + 1)]
    rfl

theorem findBestAux_stall (ts : List LabelMap) (d : Stop) :
    ∀ (fuel k : Nat) (st : Option (Label × Nat)),
      (∀ k2, k ≤ k2 → lookupL (ts.getD k2 []) d = none) →
      findBestAux ts d k fuel st = st := by
  intro fuel
  induction fuel with
  | zero => intro k st _; rfl
  | succ fuel ih =>
    intro k st h
    rw [findBestAux]
    rw [show updateBest (ts.getD k []) d k st = st from by
      unfold updateBest
      rw [h k (le_refl k)]]
    exact ih (k + 1) st (fun k2 h2 => h k2 (Nat.le_of_succ_le h2))

theorem lookup_getD_replicate (x : LabelMap) (d : Stop) (h : lookupL x d = none) :
    ∀ (n i : Nat), lookupL ((List.replicate n x).getD i []) d = none := by
  intro n
  induction n with
  | zero => intro i; cases i <;> rfl
  | succ n ih =>
    intro i
    cases i with
    | zero => simpa [List.replicate_succ] using h
    | succ i2 => simpa [List.replicate_succ] using ih i2

/-- Claim C5 amended: the source performs no validation at the query
boundary and has no error channel.  With an origin served by no route
and distinct from the destination, the call returns the no-journey
sentinel none; with origin equal to the destination it returns a
zero-leg journey with arrival equal to departure, for any departure
time (negative included) and any max_rounds (zero included). -/
theorem c5_no_validation (routes : List Route) (trips : List Trip) (o d : Stop)
    (t0 : Int) (K : Nat) (hor : ∀ r ∈ routes, o ∉ r.stops) :
    (o ≠ d → query (RAPTOR.init routes trips) o d t0 K = none) ∧
    query (RAPTOR.init routes trips) o o t0 K = some ⟨o, o, t0, t0, []⟩ := by
  have hidx : lookupNat (RAPTOR.init routes trips).routes_at_stop o.stop_id = none :=
    buildRouteIndex_none routes o hor
  constructor
  · intro hod
    have hld : lookupL [(o, (⟨t0, none, none, 0⟩ : Label))] d = none := by
      simp [lookupL, hod]
    unfold query
    have hrun : runAux (RAPTOR.init routes trips) d [(o, ⟨t0, none, none, 0⟩)] [o] 1 K =
        List.replicate K [(o, ⟨t0, none, none, 0⟩)] := by
      cases K with
      | zero => rfl
      | succ n =>
        rw [runAux_succ _ _ _ _ _ _ _ _ (roundStep_unserved _ _ _ _ hidx)]
        rw [if_neg (by simp [hld])]
        rw [runAux_stuck _ _ _ hld n 2]
        rfl
    rw [hrun]
    have hfb : findBest ([(o, (⟨t0, none, none, 0⟩ : Label))] ::
        List.replicate K [(o, ⟨t0, none, none, 0⟩)]) d K = none := by
      unfold findBest
      refine findBestAux_stall _ d (K + 1) 0 none ?_
      intro k2 _
      cases k2 with
      | zero => exact hld
      | succ k3 =>
        rw [show (([(o, (⟨t0, none, none, 0⟩ : Label))] ::
            List.replicate K [(o, ⟨t0, none, none, 0⟩)]).getD (k3 + 1) []) =
          ((List.replicate K [(o, (⟨t0, none, none, 0⟩ : Label))]).getD k3 []) from rfl]
        exact lookup_getD_replicate _ d hld K k3
    unfold reconstruct_journey
    rw [hfb]
  · have hlo : lookupL [(o, (⟨t0, none, none, 0⟩ : Label))] o =
        some ⟨t0, none, none, 0⟩ := by simp [lookupL]
    unfold query
    cases K with
    | zero =>
      rw [show runAux (RAPTOR.init routes trips) o
        [(o, (⟨t0, none, none, 0⟩ : Label))] [o] 1 0 = ([] : List LabelMap) from rfl]
      unfold reconstruct_journey findBest
      rw [show findBestAux [[(o, (⟨t0, none, none, 0⟩ : Label))]] o 0 (0 + 1) none =
          some (⟨t0, none, none, 0⟩, 0) from by
        rw [findBestAux]
        rw [show updateBest (([[(o, (⟨t0, none, none, 0⟩ : Label))]] :
            List LabelMap).getD 0 []) o 0 none = some (⟨t0, none, none, 0⟩, 0) from by
          unfold updateBest
          rw [show ([[(o, (⟨t0, none, none, 0⟩ : Label))]] : List LabelMap).getD 0 [] =
            [(o, (⟨t0, none, none, 0⟩ : Label))] from rfl, hlo]]
        rfl]
      rfl
    | succ n =>
      have hrun : runAux (RAPTOR.init routes trips) o [(o, ⟨t0, none, none, 0⟩)] [o] 1
          (n + 1) = [(o, (⟨t0, none, none, 0⟩ : Label))] :: List.replicate n [] := by
        rw [runAux_succ _ _ _ _ _ _ _ _ (roundStep_unserved _ _ _ _ hidx)]
        rw [if_pos (by simp [hlo])]
      rw [hrun]
      unfold reconstruct_journey findBest
      have hfb : findBestAux ([(o, (⟨t0, none, none, 0⟩ : Label))] ::
          [(o, (⟨t0, none, none, 0⟩ : Label))] :: List.replicate n []) o 0 (n + 1 + 1) none =
          some (⟨t0, none, none, 0⟩, 0) := by
        rw [findBestAux]
        rw [show updateBest (([(o, (⟨t0, none, none, 0⟩ : Label))] ::
            [(o, (⟨t0, none, none, 0⟩ : Label))] :: List.replicate n []).getD 0 []) o 0 none =
          some (⟨t0, none, none, 0⟩, 0) from by simp [updateBest, hlo]]
        rw [findBestAux]
        rw [show updateBest (([(o, (⟨t0, none, none, 0⟩ : Label))] ::
            [(o, (⟨t0, none, none, 0⟩ : Label))] :: List.replicate n []).getD 1 []) o 1
            (some (⟨t0, none, none, 0⟩, 0)) = some (⟨t0, none, none, 0⟩, 0) from by
          simp [updateBest, hlo]]
        refine findBestAux_stall _ o n 2 _ ?_
        intro k2 h2
        match k2, h2 with
        | (k3 + 2), _ =>
          rw [show (([(o, (⟨t0, none, none, 0⟩ : Label))] ::
              [(o, (⟨t0, none, none, 0⟩ : Label))] :: List.replicate n []).getD (k3 + 2) []) =
            ((List.replicate n ([] : LabelMap)).getD k3 []) from rfl]
          exact lookup_getD_replicate [] o rfl n k3
      rw [hfb]
      rfl

/-- Witness for the amended C5: on the rapW network the stop sX is on
no route; the query with destination wB returns none, and the
origin-equals-destination query returns the zero-leg journey even with
a negative departure time and max_rounds zero. -/
theorem c5_witness :
    (∀ r ∈ [RW], sX ∉ r.stops) ∧ sX ≠ wB ∧
    query (RAPTOR.init [RW] [TW]) sX wB 100 2 = none ∧
    query (RAPTOR.init [RW] [TW]) sX sX (-5) 0 = some ⟨sX, sX, -5, -5, []⟩ :=
  ⟨by decide, by decide,
    (c5_no_validation [RW] [TW] sX wB 100 2 (by decide)).1 (by decide),
    (c5_no_validation [RW] [TW] sX sX (-5) 0 (by decide)).2⟩

theorem getD_append_lt {α : Type} (l1 l2 : List α) (d : α) :
    ∀ i, i < l1.length → (l1 ++ l2).getD i d = l1.getD i d := by
  induction l1 with
  | nil => intro i h; simp at h
  | cons x rest ih =>
    intro i h
    cases i with
    | zero => rfl
    | succ i2 =>
      exact ih i2 (by simp only [List.length_cons] at h; omega)

theorem getD_append_len {α : Type} (l1 : List α) (x d : α) :
    (l1 ++ [x]).getD l1.length d = x := by
  induction l1 with
  | nil => rfl
  | cons y rest ih => exact ih

theorem getD_append_ge {α : Type} (l1 l2 : List α) (d : α) :
    ∀ i, l1.length ≤ i → (l1 ++ l2).getD i d = l2.getD (i - l1.length) d := by
  induction l1 with
  | nil => intro i h; simp
  | cons x rest ih =>
    intro i h
    cases i with
    | zero => simp at h
    | succ i2 =>
      have h2 : rest.length ≤ i2 := by simp only [List.length_cons] at h; omega
      have := ih i2 h2
      simpa [Nat.succ_sub_succ] using this

theorem getD_replicate_self {α : Type} (x : α) :
    ∀ (m i : Nat), (List.replicate m x).getD i x = x := by
  intro m
  induction m with
  | zero => intro i; cases i <;> rfl
  | succ m ih =>
    intro i
    cases i with
    | zero => rfl
    | succ i2 => exact ih i2

theorem getD_mem {α : Type} (l : List α) (d : α) : ∀ i, i < l.length → l.getD i d ∈ l := by
  induction l with
  | nil => intro i h; simp at h
  | cons x rest ih =>
    intro i h
    cases i with
    | zero => exact List.mem_cons_self _ _
    | succ i2 =>
      exact List.mem_cons_of_mem _ (ih i2 (by simp only [List.length_cons] at h; omega))

/-- Table cur improves on table base pointwise: every labelled stop of
base is labelled in cur with an arrival at most as late. -/
def Dominates (cur base : LabelMap) : Prop :=
  ∀ s lab, lookupL base s = some lab →
    ∃ lab2, lookupL cur s = some lab2 ∧ lab2.arrival_time ≤ lab.arrival_time

theorem Dominates_refl (mp : LabelMap) : Dominates mp mp :=
  fun _ lab h => ⟨lab, h, le_refl _⟩

theorem Dominates_trans {a b c : LabelMap} (h1 : Dominates a b) (h2 : Dominates b c) :
    Dominates a c := by
  intro s lab h
  obtain ⟨l2, hl2, hle2⟩ := h2 s lab h
  obtain ⟨l1, hl1, hle1⟩ := h1 s l2 hl2
  exact ⟨l1, hl1, le_trans hle1 hle2⟩

theorem walkStep_cases (prev : LabelMap) (k : Nat) (T : Trip)
    (w : Option Stop × LabelMap × List Stop) (s0 : Stop) :
    (walkStep prev k T w s0).2.1 = w.2.1 ∨
    ∃ b a, (walkStep prev k T w s0).2.1 = insertL w.2.1 s0 ⟨a, some b, some T, k⟩ ∧
      (Label.mk a (some b) (some T) k).is_better_than (lookupL w.2.1 s0) = true := by
  obtain ⟨bo, cur, m⟩ := w
  cases bo with
  | some b =>
    cases harr : T.get_arrival_time s0 with
    | none => exact Or.inl (by simp [walkStep, harr])
    | some a =>
      by_cases hbet :
          (Label.mk a (some b) (some T) k).is_better_than (lookupL cur s0) = true
      · exact Or.inr ⟨b, a, by simp [walkStep, harr, hbet], hbet⟩
      · exact Or.inl (by simp [walkStep, harr, hbet])
  | none =>
    cases hlk : lookupL prev s0 with
    | none => exact Or.inl (by simp [walkStep, hlk])
    | some lab0 =>
      by_cases hcb : T.can_board_at s0 lab0.arrival_time = true
      · cases harr : T.get_arrival_time s0 with
        | none => exact Or.inl (by simp [walkStep, hlk, hcb, harr])
        | some a =>
          by_cases hbet :
              (Label.mk a (some s0) (some T) k).is_better_than (lookupL cur s0) = true
          · exact Or.inr ⟨s0, a, by simp [walkStep, hlk, hcb, harr, hbet], hbet⟩
          · exact Or.inl (by simp [walkStep, hlk, hcb, harr, hbet])
      · exact Or.inl (by simp [walkStep, hlk, hcb])

theorem insert_dom (cur base : LabelMap) (s0 : Stop) (nl : Label)
    (hdom : Dominates cur base) (hbet : nl.is_better_than (lookupL cur s0) = true) :
    Dominates (insertL cur s0 nl) base := by
  intro s lab hbase
  obtain ⟨lab2, hl2, hle2⟩ := hdom s lab hbase
  by_cases hs : s0 = s
  · subst hs
    rw [lookupL_insertL, if_pos rfl]
    refine ⟨nl, rfl, ?_⟩
    rw [hl2] at hbet
    have := (is_better_than_some nl lab2).mp hbet
    omega
  · rw [lookupL_insertL, if_neg hs]
    exact ⟨lab2, hl2, hle2⟩

theorem walk_fold_dom (prev base : LabelMap) (k : Nat) (T : Trip) :
    ∀ (stops : List Stop) (bo : Option Stop) (cur : LabelMap) (m : List Stop),
      Dominates cur base →
      Dominates ((stops.foldl (walkStep prev k T) (bo, cur, m)).2.1) base := by
  intro stops
  induction stops with
  | nil => intro bo cur m h; exact h
  | cons s0 rest ih =>
    intro bo cur m h
    rw [List.foldl_cons]
    rcases hw : walkStep prev k T (bo, cur, m) s0 with ⟨bo2, cur2, m2⟩
    have hc := walkStep_cases prev k T (bo, cur, m) s0
    rw [hw] at hc
    rcases hc with hc | ⟨b, a, hc, hbet⟩
    · have hc2 : cur2 = cur := hc
      refine ih bo2 cur2 m2 ?_
      rw [hc2]
      exact h
    · have hc2 : cur2 = insertL cur s0 ⟨a, some b, some T, k⟩ := hc
      refine ih bo2 cur2 m2 ?_
      rw [hc2]
      exact insert_dom cur base s0 _ h hbet

theorem scanRoute_dom (rap : RAPTOR) (prev : LabelMap) (k : Nat)
    (st : LabelMap × List Stop) (r : Route) (base : LabelMap)
    (h : Dominates st.1 base) : Dominates (scanRoute rap prev k st r).1 base := by
  cases heb : findEarliestBoarding prev r.stops with
  | none => rw [show scanRoute rap prev k st r = st from by simp [scanRoute, heb]]; exact h
  | some p =>
    obtain ⟨bs, bt⟩ := p
    cases hft : find_earliest_trip rap r bs bt with
    | none =>
      rw [show scanRoute rap prev k st r = st from by simp [scanRoute, heb, hft]]
      exact h
    | some T =>
      rw [show (scanRoute rap prev k st r).1 =
        (r.stops.foldl (walkStep prev k T) (none, st.1, st.2)).2.1 from by
          simp [scanRoute, heb, hft]]
      exact walk_fold_dom prev base k T r.stops none st.1 st.2 h

theorem roundStep_dom (rap : RAPTOR) (prev : LabelMap) (marked : List Stop) (k : Nat) :
    Dominates (roundStep rap prev marked k).1 prev := by
  unfold roundStep
  generalize collectRoutes rap marked = q
  have hgen : ∀ (l : List Route) (st : LabelMap × List Stop), Dominates st.1 prev →
      Dominates ((l.foldl (scanRoute rap prev k) st).1) prev := by
    intro l
    induction l with
    | nil => intro st h; exact h
    | cons r rest ih =>
      intro st h
      rw [List.foldl_cons]
      exact ih _ (scanRoute_dom rap prev k st r prev h)
  exact hgen q (prev, []) (Dominates_refl prev)

/-- A label freshly written during some round k: it records a trip, a
boarding stop boardable against the previous-round table, and the
arrival of the trip at the stop. -/
def RoundNew (prev : LabelMap) (k : Nat) (s : Stop) (lab : Label) : Prop :=
  lab.round = k ∧ ∃ T, lab.trip = some T ∧
  ∃ b, lab.previous_stop = some b ∧
    (∃ labb, lookupL prev b = some labb ∧ T.can_board_at b labb.arrival_time = true) ∧
    ∃ a, T.get_arrival_time s = some a ∧ lab.arrival_time = a

theorem roundStep_ext (rap : RAPTOR) (prev : LabelMap) (marked : List Stop) (k : Nat) :
    ∀ s lab, lookupL (roundStep rap prev marked k).1 s = some lab →
      lookupL prev s = some lab ∨ RoundNew prev k s lab := by
  unfold roundStep
  generalize collectRoutes rap marked = q
  have hgen : ∀ (l : List Route) (st : LabelMap × List Stop),
      (∀ s lab, lookupL st.1 s = some lab →
        lookupL prev s = some lab ∨ RoundNew prev k s lab) →
      ∀ s lab, lookupL ((l.foldl (scanRoute rap prev k) st).1) s = some lab →
        lookupL prev s = some lab ∨ RoundNew prev k s lab := by
    intro l
    induction l with
    | nil => intro st h; exact h
    | cons r rest ih =>
      intro st h
      rw [List.foldl_cons]
      refine ih _ ?_
      intro s lab hl
      rcases scanRoute_ext rap prev k st r s lab hl with h2 | h2
      · exact h s lab h2
      · right
        obtain ⟨hr, bs, bt, T, heb, hft, htr, b, hp, hbf, a, harr, hat⟩ := h2
        exact ⟨hr, T, htr, b, hp, hbf, a, harr, hat⟩
  exact hgen q (prev, []) (fun s lab h => Or.inl h)

/-- Soundness of one label of round table r within the table list ts:
its round is at most r; an origin-style label (no trip) carries the
query departure time; a trip label records a boarding stop whose label
one round earlier permits boarding, and the trip arrival at the stop. -/
def LabGood (t0 : Int) (ts : List LabelMap) (r : Nat) (s : Stop) (lab : Label) : Prop :=
  lab.round ≤ r ∧
  (lab.trip = none → lab.arrival_time = t0) ∧
  (∀ T, lab.trip = some T → ∃ p, lab.previous_stop = some p ∧ 1 ≤ lab.round ∧
    (∃ labp, lookupL (ts.getD (lab.round - 1) []) p = some labp ∧
      ∃ dp, T.get_departure_time p = some dp ∧ labp.arrival_time ≤ dp) ∧
    ∃ a, T.get_arrival_time s = some a ∧ lab.arrival_time = a)

/-- All labels of all tables of the list are sound. -/
def TablesOK (t0 : Int) (ts : List LabelMap) : Prop :=
  ∀ r s lab, r < ts.length → lookupL (ts.getD r []) s = some lab → LabGood t0 ts r s lab

/-- Each round table improves on its predecessor. -/
def ChainMono (ts : List LabelMap) : Prop :=
  ∀ r, r + 1 < ts.length → Dominates (ts.getD (r + 1) []) (ts.getD r [])

theorem LabGood_mono_r (t0 : Int) (ts : List LabelMap) (r r2 : Nat) (s : Stop)
    (lab : Label) (h : LabGood t0 ts r s lab) (hr : r ≤ r2) : LabGood t0 ts r2 s lab :=
  ⟨le_trans h.1 hr, h.2.1, h.2.2⟩

theorem LabGood_append (t0 : Int) (ts : List LabelMap) (cur : LabelMap) (r : Nat)
    (s : Stop) (lab : Label) (h : LabGood t0 ts r s lab)
    (hlt : lab.round - 1 < ts.length) : LabGood t0 (ts ++ [cur]) r s lab := by
  obtain ⟨h1, h2, h3⟩ := h
  refine ⟨h1, h2, ?_⟩
  intro T hT
  obtain ⟨p, hp, hr1, ⟨labp, hlabp, dp, hdp, hle⟩, a, harr, hat⟩ := h3 T hT
  refine ⟨p, hp, hr1, ⟨labp, ?_, dp, hdp, hle⟩, a, harr, hat⟩
  rw [getD_append_lt ts [cur] [] _ hlt]
  exact hlabp

theorem mono_le (ts : List LabelMap) (hcm : ChainMono ts) :
    ∀ i j, i ≤ j → j < ts.length → Dominates (ts.getD j []) (ts.getD i []) := by
  intro i j hij
  induction hij with
  | refl => intro _; exact Dominates_refl _
  | step h2 ih =>
    intro hj
    exact Dominates_trans (hcm _ hj) (ih (by omega))

theorem tables_append (t0 : Int) (ts : List LabelMap) (cur : LabelMap)
    (hOK : TablesOK t0 ts) (hne : 0 < ts.length)
    (hext : ∀ s lab, lookupL cur s = some lab →
      lookupL (ts.getD (ts.length - 1) []) s = some lab ∨
        RoundNew (ts.getD (ts.length - 1) []) ts.length s lab) :
    TablesOK t0 (ts ++ [cur]) := by
  intro r s lab hr hlook
  rw [List.length_append, List.length_singleton] at hr
  by_cases hrl : r < ts.length
  · rw [getD_append_lt ts [cur] [] r hrl] at hlook
    have h := hOK r s lab hrl hlook
    refine LabGood_append t0 ts cur r s lab h ?_
    have := h.1
    omega
  · have hreq : r = ts.length := by omega
    subst hreq
    rw [getD_append_len ts cur []] at hlook
    rcases hext s lab hlook with h2 | h2
    · have h := hOK (ts.length - 1) s lab (by omega) h2
      have h3 := LabGood_append t0 ts cur (ts.length - 1) s lab h
        (by have := h.1; omega)
      exact LabGood_mono_r t0 (ts ++ [cur]) (ts.length - 1) ts.length s lab h3 (by omega)
    · obtain ⟨hr0, T, htr, b, hp, ⟨labb, hlabb, hcb⟩, a, harr, hat⟩ := h2
      refine ⟨by omega, ?_, ?_⟩
      · intro hn; rw [htr] at hn; exact Option.noConfusion hn
      · intro T2 hT2
        rw [htr] at hT2
        have hTT : T = T2 := Option.some.inj hT2
        subst hTT
        refine ⟨b, hp, by omega, ⟨labb, ?_, ?_⟩, a, harr, hat⟩
        · rw [show lab.round - 1 = ts.length - 1 from by omega]
          rw [getD_append_lt ts [cur] [] (ts.length - 1) (by omega)]
          exact hlabb
        · obtain ⟨dp, hdp, hle⟩ := (can_board_at_iff T b labb.arrival_time).mp hcb
          exact ⟨dp, hdp, hle⟩

theorem chainmono_append (ts : List LabelMap) (cur : LabelMap) (h : ChainMono ts)
    (hne : 0 < ts.length) (hdom : Dominates cur (ts.getD (ts.length - 1) [])) :
    ChainMono (ts ++ [cur]) := by
  intro r hr
  rw [List.length_append, List.length_singleton] at hr
  by_cases hrl : r + 1 < ts.length
  · rw [getD_append_lt ts [cur] [] (r + 1) hrl, getD_append_lt ts [cur] [] r (by omega)]
    exact h r hrl
  · have e1 : r + 1 = ts.length := by omega
    have e2 : r = ts.length - 1 := by omega
    rw [e1, e2, getD_append_len ts cur [],
      getD_append_lt ts [cur] [] (ts.length - 1) (by omega)]
    exact hdom

theorem dom_ne (cur prev : LabelMap) (h : Dominates cur prev) (hne : prev ≠ []) :
    cur ≠ [] := by
  cases prev with
  | nil => exact absurd rfl hne
  | cons p rest =>
    obtain ⟨s0, l0⟩ := p
    obtain ⟨lab2, hl2, -⟩ := h s0 l0 (by simp [lookupL])
    intro hc
    rw [hc] at hl2
    simp [lookupL] at hl2

theorem runAux_good (rap : RAPTOR) (d : Stop) (t0 : Int) :
    ∀ (n : Nat) (ts : List LabelMap) (marked : List Stop),
      TablesOK t0 ts → ChainMono ts → (∀ x ∈ ts, x ≠ []) → 0 < ts.length →
      ∃ G m2, ts ++ runAux rap d (ts.getD (ts.length - 1) []) marked ts.length n =
          G ++ (List.replicate m2 [] : List LabelMap) ∧
        TablesOK t0 G ∧ ChainMono G ∧ (∀ x ∈ G, x ≠ []) ∧ 0 < G.length := by
  intro n
  induction n with
  | zero =>
    intro ts marked hOK hcm hnn hne
    exact ⟨ts, 0, rfl, hOK, hcm, hnn, hne⟩
  | succ n ih =>
    intro ts marked hOK hcm hnn hne
    rcases hrs : roundStep rap (ts.getD (ts.length - 1) []) marked ts.length with ⟨cur, m2⟩
    have hdom : Dominates cur (ts.getD (ts.length - 1) []) := by
      have h2 := roundStep_dom rap (ts.getD (ts.length - 1) []) marked ts.length
      rw [hrs] at h2
      exact h2
    have hext : ∀ s lab, lookupL cur s = some lab →
        lookupL (ts.getD (ts.length - 1) []) s = some lab ∨
          RoundNew (ts.getD (ts.length - 1) []) ts.length s lab := by
      intro s lab h2
      have h3 := roundStep_ext rap (ts.getD (ts.length - 1) []) marked ts.length s lab
      rw [hrs] at h3
      exact h3 h2
    have hOK2 : TablesOK t0 (ts ++ [cur]) := tables_append t0 ts cur hOK hne hext
    have hcm2 : ChainMono (ts ++ [cur]) := chainmono_append ts cur hcm hne hdom
    have hcne : cur ≠ [] :=
      dom_ne cur _ hdom (hnn _ (getD_mem ts [] (ts.length - 1) (by omega)))
    have hnn2 : ∀ x ∈ ts ++ [cur], x ≠ [] := by
      intro x hx
      rcases List.mem_append.mp hx with hx | hx
      · exact hnn x hx
      · rw [List.mem_singleton.mp hx]; exact hcne
    rw [runAux_succ rap d _ marked ts.length n cur m2 hrs]
    by_cases hcond : (lookupL cur d).isSome ∧ d ∉ m2
    · rw [if_pos hcond]
      refine ⟨ts ++ [cur], n, ?_, hOK2, hcm2, hnn2,
        by simp only [List.length_append, List.length_singleton]; omega⟩
      rw [List.append_assoc]
      rfl
    · rw [if_neg hcond]
      obtain ⟨G, mm, heq, a1, a2, a3, a4⟩ := ih (ts ++ [cur]) m2 hOK2 hcm2 hnn2
        (by simp only [List.length_append, List.length_singleton]; omega)
      refine ⟨G, mm, ?_, a1, a2, a3, a4⟩
      rw [show (ts ++ [cur]).getD ((ts ++ [cur]).length - 1) [] = cur from by
        rw [List.length_append, List.length_singleton,
          show ts.length + 1 - 1 = ts.length from rfl]
        exact getD_append_len ts cur []] at heq
      rw [show (ts ++ [cur]).length = ts.length + 1 from by simp] at heq
      rw [← heq]
      rw [List.append_assoc]
      rfl

/-- The chained-departure property of a leg list: entered with clock t,
each leg departs its from-stop no earlier than the clock, and the clock
advances to the trip arrival at the to-stop. -/
def legsOK : Int → List (Stop × Stop × Trip) → Prop
  | _, [] => True
  | t, (f, s2, T) :: rest =>
      ∃ dt a, T.get_departure_time f = some dt ∧ t ≤ dt ∧
        T.get_arrival_time s2 = some a ∧ legsOK a rest

theorem findBestAux_lookup (ts : List LabelMap) (d : Stop) :
    ∀ (fuel k : Nat) (st : Option (Label × Nat)) (bl : Label) (br : Nat),
      (∀ b2 r2, st = some (b2, r2) → lookupL (ts.getD r2 []) d = some b2) →
      findBestAux ts d k fuel st = some (bl, br) →
      lookupL (ts.getD br []) d = some bl := by
  intro fuel
  induction fuel with
  | zero =>
    intro k st bl br hst heq
    exact hst bl br heq
  | succ fuel ih =>
    intro k st bl br hst heq
    rw [findBestAux] at heq
    refine ih (k + 1) _ bl br ?_ heq
    intro b2 r2 h2
    cases hup : lookupL (ts.getD k []) d with
    | none =>
      rw [show updateBest (ts.getD k []) d k st = st from by
        unfold updateBest; rw [hup]] at h2
      exact hst b2 r2 h2
    | some lab =>
      cases st with
      | none =>
        rw [show updateBest (ts.getD k []) d k none = some (lab, k) from by
          unfold updateBest; rw [hup]] at h2
        injection h2 with h3
        injection h3 with h4 h5
        subst h4; subst h5
        exact hup
      | some p =>
        obtain ⟨bl0, br0⟩ := p
        by_cases hlt : lab.arrival_time < bl0.arrival_time
        · rw [show updateBest (ts.getD k []) d k (some (bl0, br0)) = some (lab, k) from by
            unfold updateBest; simp only [hup]; rw [if_pos hlt]] at h2
          injection h2 with h3
          injection h3 with h4 h5
          subst h4; subst h5
          exact hup
        · rw [show updateBest (ts.getD k []) d k (some (bl0, br0)) = some (bl0, br0) from by
            unfold updateBest; simp only [hup]; rw [if_neg hlt]] at h2
          injection h2 with h3
          injection h3 with h4 h5
          subst h4; subst h5
          exact hst bl0 br0 rfl

theorem backtrack_legsOK (t0 : Int) (G tsAll : List LabelMap) (m2 : Nat)
    (hts : tsAll = G ++ (List.replicate m2 [] : List LabelMap))
    (hOK : TablesOK t0 G) (hcm : ChainMono G) :
    ∀ (r : Nat) (s : Stop) (acc res : List (Stop × Stop × Trip)) (lab : Label),
      r < G.length → backtrack tsAll r s acc = some res →
      lookupL (tsAll.getD r []) s = some lab →
      legsOK lab.arrival_time acc → legsOK t0 res := by
  intro r
  induction r with
  | zero =>
    intro s acc res lab hr hbt hlook hacc
    have hres : acc = res := Option.some.inj hbt
    rw [hts, getD_append_lt G _ [] 0 hr] at hlook
    have hlg := hOK 0 s lab hr hlook
    cases htr : lab.trip with
    | some T =>
      obtain ⟨p, hp, hr1, -, -⟩ := hlg.2.2 T htr
      have := hlg.1
      omega
    | none =>
      have ha := hlg.2.1 htr
      rw [← hres, ← ha]
      exact hacc
  | succ r ih =>
    intro s acc res lab hr hbt hlook hacc
    have hlookG : lookupL (G.getD (r + 1) []) s = some lab := by
      rw [hts, getD_append_lt G _ [] (r + 1) hr] at hlook
      exact hlook
    have hlg := hOK (r + 1) s lab hr hlookG
    cases htr : lab.trip with
    | none =>
      have hred : backtrack tsAll (r + 1) s acc = some acc := by
        rw [backtrack]
        cases hps : lab.previous_stop <;> simp only [hlook, hps, htr]
      rw [hred] at hbt
      have hres : acc = res := Option.some.inj hbt
      have ha := hlg.2.1 htr
      rw [← hres, ← ha]
      exact hacc
    | some T =>
      obtain ⟨p, hp, hr1, ⟨labp, hlabp, dp, hdp, hledp⟩, a, harr, hat⟩ := hlg.2.2 T htr
      have hred : backtrack tsAll (r + 1) s acc =
          backtrack tsAll r p ((p, s, T) :: acc) := by
        rw [backtrack]
        simp only [hlook, hp, htr]
      rw [hred] at hbt
      have hj : lab.round ≤ r + 1 := hlg.1
      have hdom := mono_le G hcm (lab.round - 1) r (by omega) (by omega)
      obtain ⟨labr, hlabr, hler⟩ := hdom p labp hlabp
      have hlabrAll : lookupL (tsAll.getD r []) p = some labr := by
        rw [hts, getD_append_lt G _ [] r (by omega)]
        exact hlabr
      refine ih p ((p, s, T) :: acc) res labr (by omega) hbt hlabrAll ?_
      exact ⟨dp, a, hdp, by omega, harr, by rw [← hat]; exact hacc⟩

/-- Claim C3: whenever query returns a journey, every leg departs its
boarding stop no earlier than the arrival of the previous leg at its
alighting stop, and the first leg departs no earlier than the requested
departure time. -/
theorem c3_leg_departures_chained (rap : RAPTOR) (o d : Stop) (t0 : Int) (K : Nat)
    (j : Journey) (h : query rap o d t0 K = some j) : legsOK t0 j.legs := by
  unfold query at h
  have hOK0 : TablesOK t0 [[(o, (⟨t0, none, none, 0⟩ : Label))]] := by
    intro r s lab hr hlook
    have hr0 : r = 0 := by simp only [List.length_singleton] at hr; omega
    subst hr0
    have hlab : lab = ⟨t0, none, none, 0⟩ := by
      rw [show ([[(o, (⟨t0, none, none, 0⟩ : Label))]].getD 0 []) =
        [(o, (⟨t0, none, none, 0⟩ : Label))] from rfl] at hlook
      by_cases ho : o = s
      · rw [show lookupL [(o, (⟨t0, none, none, 0⟩ : Label))] s =
          some ⟨t0, none, none, 0⟩ from by simp [lookupL, ho]] at hlook
        exact (Option.some.inj hlook).symm
      · rw [show lookupL [(o, (⟨t0, none, none, 0⟩ : Label))] s = none from by
          simp [lookupL, ho]] at hlook
        exact Option.noConfusion hlook
    subst hlab
    exact ⟨Nat.le_refl 0, fun _ => rfl, fun T hT => Option.noConfusion hT⟩
  have hcm0 : ChainMono [[(o, (⟨t0, none, none, 0⟩ : Label))]] := by
    intro r hr
    simp only [List.length_singleton] at hr
    omega
  have hnn0 : ∀ x ∈ [[(o, (⟨t0, none, none, 0⟩ : Label))]], x ≠ [] := by
    intro x hx
    rw [List.mem_singleton.mp hx]
    simp
  obtain ⟨G, mm, heq, hOKG, hcmG, hnnG, hneG⟩ :=
    runAux_good rap d t0 K [[(o, ⟨t0, none, none, 0⟩)]] [o] hOK0 hcm0 hnn0 (by simp)
  have heq2 : ([(o, (⟨t0, none, none, 0⟩ : Label))] ::
      runAux rap d [(o, ⟨t0, none, none, 0⟩)] [o] 1 K) =
      G ++ (List.replicate mm [] : List LabelMap) := heq
  rw [heq2] at h
  unfold reconstruct_journey at h
  cases hfb : findBest (G ++ (List.replicate mm [] : List LabelMap)) d K with
  | none => rw [hfb] at h; exact Option.noConfusion h
  | some p =>
    obtain ⟨bl, br⟩ := p
    rw [hfb] at h
    cases hbt : backtrack (G ++ (List.replicate mm [] : List LabelMap)) br d [] with
    | none =>
      simp only [hbt] at h
      exact Option.noConfusion h
    | some legs =>
      simp only [hbt] at h
      have hjj : j = ⟨o, d, t0, bl.arrival_time, legs⟩ := (Option.some.inj h).symm
      rw [findBest] at hfb
      have hlookbr := findBestAux_lookup (G ++ (List.replicate mm [] : List LabelMap)) d
        (K + 1) 0 none bl br (fun b2 r2 hc => Option.noConfusion hc) hfb
      have hbr : br < G.length := by
        by_contra hge
        push_neg at hge
        rw [getD_append_ge G _ [] br hge, getD_replicate_self] at hlookbr
        simp [lookupL] at hlookbr
      have hlast := backtrack_legsOK t0 G (G ++ (List.replicate mm [] : List LabelMap))
        mm rfl hOKG hcmG br d [] legs bl hbr hbt hlookbr trivial
      rw [hjj]
      exact hlast

/-- Witness for C3: the scenario A query returns the one-leg journey jW
and its legs satisfy the chained-departure property from 28800. -/
theorem c3_witness : legsOK 28800 jW.legs :=
  c3_leg_departures_chained rapW wA wB 28800 2 jW (by decide)

theorem getD_replicate_lt {α : Type} (x d : α) :
    ∀ (n i : Nat), i < n → (List.replicate n x).getD i d = x := by
  intro n
  induction n with
  | zero => intro i h; omega
  | succ n ih =>
    intro i h
    cases i with
    | zero => rfl
    | succ i2 => exact ih i2 (by omega)

theorem getD_replicate_ge {α : Type} (x d : α) :
    ∀ (n i : Nat), n ≤ i → (List.replicate n x).getD i d = d := by
  intro n
  induction n with
  | zero => intro i h; cases i <;> rfl
  | succ n ih =>
    intro i h
    cases i with
    | zero => omega
    | succ i2 => exact ih i2 (by omega)

theorem runAuxNB_marked_empty (rap : RAPTOR) (d : Stop) (prev : LabelMap) :
    ∀ (n k : Nat), runAuxNB rap d prev [] k n = List.replicate n prev := by
  intro n
  induction n with
  | zero => intro k; rfl
  | succ n ih =>
    intro k
    rw [runAuxNB_succ rap d prev [] k n prev [] (roundStep_empty_marked rap prev k)]
    rw [ih (k + 1)]
    rfl

theorem findBestAux_stall_nil (pre : List LabelMap) (n : Nat) (d : Stop) :
    ∀ (fuel k : Nat) (st : Option (Label × Nat)), pre.length ≤ k →
      findBestAux (pre ++ (List.replicate n [] : List LabelMap)) d k fuel st = st := by
  intro fuel
  induction fuel with
  | zero => intro k st _; rfl
  | succ fuel ih =>
    intro k st hk
    rw [findBestAux]
    have htbl : (pre ++ (List.replicate n [] : List LabelMap)).getD k [] = [] := by
      rw [getD_append_ge pre _ [] k hk]
      exact getD_replicate_self [] n (k - pre.length)
    rw [show updateBest ((pre ++ (List.replicate n [] : List LabelMap)).getD k []) d k st
      = st from by rw [htbl]; rfl]
    exact ih (k + 1) st (by omega)

theorem findBestAux_stall_copy (pre : List LabelMap) (c : LabelMap) (n : Nat) (d : Stop) :
    ∀ (fuel k : Nat) (st : Option (Label × Nat)), pre.length ≤ k →
      (∀ lab, lookupL c d = some lab →
        ∃ bl br, st = some (bl, br) ∧ bl.arrival_time ≤ lab.arrival_time) →
      findBestAux (pre ++ List.replicate n c) d k fuel st = st := by
  intro fuel
  induction fuel with
  | zero => intro k st _ _; rfl
  | succ fuel ih =>
    intro k st hk hInv
    rw [findBestAux]
    have hstep : updateBest ((pre ++ List.replicate n c).getD k []) d k st = st := by
      by_cases hkn : k - pre.length < n
      · rw [show (pre ++ List.replicate n c).getD k [] = c from by
          rw [getD_append_ge pre _ [] k hk]
          exact getD_replicate_lt c [] n (k - pre.length) hkn]
        cases hlc : lookupL c d with
        | none => unfold updateBest; rw [hlc]
        | some lab =>
          obtain ⟨bl, br, hst, hle⟩ := hInv lab hlc
          subst hst
          unfold updateBest
          simp only [hlc]
          rw [if_neg (by omega)]
      · rw [show (pre ++ List.replicate n c).getD k [] = [] from by
          rw [getD_append_ge pre _ [] k hk]
          exact getD_replicate_ge c [] n (k - pre.length) (by omega)]
        rfl
    rw [hstep]
    exact ih (k + 1) st (by omega) hInv

theorem findBestAux_common (pre : List LabelMap) (c : LabelMap) (n : Nat) (d : Stop)
    (hne : 0 < pre.length) (hc : pre.getD (pre.length - 1) [] = c) :
    ∀ (fuel k : Nat) (st : Option (Label × Nat)),
      (pre.length ≤ k → ∀ lab, lookupL c d = some lab →
        ∃ bl br, st = some (bl, br) ∧ bl.arrival_time ≤ lab.arrival_time) →
      findBestAux (pre ++ (List.replicate n [] : List LabelMap)) d k fuel st =
        findBestAux (pre ++ List.replicate n c) d k fuel st := by
  intro fuel
  induction fuel with
  | zero => intro k st _; rfl
  | succ fuel ih =>
    intro k st hInv
    by_cases hk : k < pre.length
    · rw [findBestAux, findBestAux]
      rw [getD_append_lt pre _ [] k hk, getD_append_lt pre _ [] k hk]
      refine ih (k + 1) (updateBest (pre.getD k []) d k st) ?_
      intro hk2 lab hlc
      have hkl : k = pre.length - 1 := by omega
      rw [hkl, hc]
      cases st with
      | none =>
        refine ⟨lab, pre.length - 1, ?_, le_refl _⟩
        unfold updateBest
        rw [hlc]
      | some p =>
        obtain ⟨bl0, br0⟩ := p
        by_cases hlt : lab.arrival_time < bl0.arrival_time
        · refine ⟨lab, pre.length - 1, ?_, le_refl _⟩
          unfold updateBest
          simp only [hlc]
          rw [if_pos hlt]
        · refine ⟨bl0, br0, ?_, by omega⟩
          unfold updateBest
          simp only [hlc]
          rw [if_neg hlt]
    · have hk2 : pre.length ≤ k := by omega
      rw [findBestAux_stall_nil pre n d (fuel + 1) k st hk2,
        findBestAux_stall_copy pre c n d (fuel + 1) k st hk2 (hInv hk2)]

theorem backtrack_prefix_eq (pre : List LabelMap) (c : LabelMap) (n : Nat) :
    ∀ (r : Nat), r < pre.length → ∀ (s : Stop) (acc : List (Stop × Stop × Trip)),
      backtrack (pre ++ (List.replicate n [] : List LabelMap)) r s acc =
        backtrack (pre ++ List.replicate n c) r s acc := by
  intro r
  induction r with
  | zero => intro _ s acc; rfl
  | succ r ih =>
    intro hr s acc
    rw [backtrack, backtrack]
    rw [getD_append_lt pre _ [] (r + 1) hr, getD_append_lt pre _ [] (r + 1) hr]
    cases hlk : lookupL (pre.getD (r + 1) []) s with
    | none => simp only [hlk]
    | some lab =>
      simp only [hlk]
      cases hps : lab.previous_stop with
      | none => simp only [hps]
      | some p =>
        cases htr : lab.trip with
        | none => simp only [hps, htr]
        | some T =>
          simp only [hps, htr]
          exact ih (by omega) p ((p, s, T) :: acc)

theorem reconstruct_suffix_eq (o d : Stop) (t0 : Int) (K : Nat) (pre : List LabelMap)
    (c : LabelMap) (n : Nat) (hne : 0 < pre.length)
    (hc : pre.getD (pre.length - 1) [] = c) :
    reconstruct_journey o d t0 (pre ++ (List.replicate n [] : List LabelMap)) K =
      reconstruct_journey o d t0 (pre ++ List.replicate n c) K := by
  have hfb : findBest (pre ++ (List.replicate n [] : List LabelMap)) d K =
      findBest (pre ++ List.replicate n c) d K := by
    unfold findBest
    exact findBestAux_common pre c n d hne hc (K + 1) 0 none
      (fun hk => absurd hk (by omega))
  unfold reconstruct_journey
  rw [hfb]
  cases hf2 : findBest (pre ++ List.replicate n c) d K with
  | none => simp only [hf2]
  | some p =>
    obtain ⟨bl, br⟩ := p
    simp only [hf2]
    have hlook : lookupL ((pre ++ (List.replicate n [] : List LabelMap)).getD br []) d =
        some bl := by
      refine findBestAux_lookup (pre ++ (List.replicate n [] : List LabelMap)) d
        (K + 1) 0 none bl br (fun b2 r2 hcon => Option.noConfusion hcon) ?_
      rw [show findBestAux (pre ++ (List.replicate n [] : List LabelMap)) d 0 (K + 1) none
        = findBest (pre ++ (List.replicate n [] : List LabelMap)) d K from rfl]
      rw [hfb, hf2]
    have hbr : br < pre.length := by
      by_contra hge
      push_neg at hge
      rw [getD_append_ge pre _ [] br hge, getD_replicate_self] at hlook
      simp [lookupL] at hlook
    rw [backtrack_prefix_eq pre c n br hbr d []]

theorem runBE_NB_reconstruct (rap : RAPTOR) (o d : Stop) (t0 : Int) (K : Nat) :
    ∀ (n : Nat) (pre : List LabelMap) (marked : List Stop) (k : Nat), 0 < pre.length →
      reconstruct_journey o d t0
        (pre ++ runAuxBE rap d (pre.getD (pre.length - 1) []) marked k n) K =
      reconstruct_journey o d t0
        (pre ++ runAuxNB rap d (pre.getD (pre.length - 1) []) marked k n) K := by
  intro n
  induction n with
  | zero => intro pre marked k _; rfl
  | succ n ih =>
    intro pre marked k hne
    rcases hrs : roundStep rap (pre.getD (pre.length - 1) []) marked k with ⟨cur, m2⟩
    rw [runAuxBE_succ rap d _ marked k n cur m2 hrs,
      runAuxNB_succ rap d _ marked k n cur m2 hrs]
    have hclen : (pre ++ [cur]).getD ((pre ++ [cur]).length - 1) [] = cur := by
      rw [List.length_append, List.length_singleton,
        show pre.length + 1 - 1 = pre.length from rfl]
      exact getD_append_len pre cur []
    by_cases hcond : (lookupL cur d).isSome ∧ m2 = []
    · rw [if_pos hcond]
      rw [hcond.2, runAuxNB_marked_empty rap d cur n (k + 1)]
      rw [show pre ++ cur :: (List.replicate n [] : List LabelMap) =
        (pre ++ [cur]) ++ (List.replicate n [] : List LabelMap) from by
          rw [List.append_assoc]; rfl]
      rw [show pre ++ cur :: List.replicate n cur =
        (pre ++ [cur]) ++ List.replicate n cur from by rw [List.append_assoc]; rfl]
      exact reconstruct_suffix_eq o d t0 K (pre ++ [cur]) cur n
        (by simp only [List.length_append, List.length_singleton]; omega) hclen
    · rw [if_neg hcond]
      rw [show pre ++ cur :: runAuxBE rap d cur m2 (k + 1) n =
        (pre ++ [cur]) ++ runAuxBE rap d cur m2 (k + 1) n from by
          rw [List.append_assoc]; rfl]
      rw [show pre ++ cur :: runAuxNB rap d cur m2 (k + 1) n =
        (pre ++ [cur]) ++ runAuxNB rap d cur m2 (k + 1) n from by
          rw [List.append_assoc]; rfl]
      have ih2 := ih (pre ++ [cur]) m2 (k + 1)
        (by simp only [List.length_append, List.length_singleton]; omega)
      rw [hclen] at ih2
      exact ih2

/-- Claim C4 amended: with the repaired termination test, which stops
only when the destination is labelled and no stop at all was improved
in the just-completed round, the query returns exactly the same
journey as running all max_rounds rounds with no early termination. -/
theorem c4_break_empty_equiv (rap : RAPTOR) (o d : Stop) (t0 : Int) (K : Nat) :
    queryBreakEmpty rap o d t0 K = queryNoBreak rap o d t0 K := by
  unfold queryBreakEmpty queryNoBreak
  exact runBE_NB_reconstruct rap o d t0 K K [[(o, ⟨t0, none, none, 0⟩)]] [o] 1 (by simp)
